import Mathlib

/-!
# Verification of the gpt-oss-ai-document-chat RAG core

Shallow embedding of the backend services of the repository
(`src/backend/src/services/{documentService,embeddingService,queryService}.ts`).

External collaborators (the langchain text splitter, the HuggingFace
embedding pipeline and chat-completion client, and the supabase tables)
are modelled as oracles collected in an `Env` structure; the database is
an explicit `DB` value (the `documents` and `few_shot_examples` tables as
lists of rows) threaded through the functions, and calls to the external
backends are counted in a `Trace`.  JavaScript `async` loops that can
retry (the rate-limit handling) are modelled with an explicit fuel
parameter: a result of `none` means the fuel ran out before the loop
finished.  JavaScript numeric strings are modelled over `Nat`/`Int`/`ℚ`,
and `string.slice` / `substring` over the string's character list.
-/

namespace DocChat

/-- JS `s.substring(0, n)` / `s.slice(0, n)` for `n ≥ 0`: the first `n`
characters of `s`. -/
def jsTake (s : String) (n : Nat) : String :=
  String.mk (s.toList.take n)

/-- JS `s.slice(start, stop)` with possibly negative `Int` arguments:
negative indices count from the end of the string, and both indices are
clamped to `[0, s.length]`. -/
def jsSliceInt (s : String) (start stop : Int) : String :=
  let n : Int := s.length
  let lo : Int := if start < 0 then max (n + start) 0 else min start n
  let hi : Int := if stop < 0 then max (n + stop) 0 else min stop n
  if lo < hi then String.mk ((s.toList.drop lo.toNat).take (hi - lo).toNat)
  else ""

/-- `estimateTokens` (both services): `Math.ceil(text.length / 4)`. -/
def estimateTokens (text : String) : Nat :=
  (text.length + 3) / 4

/-- JS `x || d` on an optional rational field: `undefined`/`null` and the
falsy number `0` are replaced by the default `d`. -/
def jsOrRat (x : Option ℚ) (d : ℚ) : ℚ :=
  match x with
  | none => d
  | some v => if v = 0 then d else v

/-- JS `x || d` on an optional string field: `undefined`/`null` and the
falsy empty string are replaced by the default `d`. -/
def jsOrString (x : Option String) (d : String) : String :=
  match x with
  | none => d
  | some v => if v = "" then d else v

/-- JS `x || d` on an optional natural-number field. -/
def jsOrNat (x : Option Nat) (d : Nat) : Nat :=
  match x with
  | none => d
  | some v => if v = 0 then d else v

/-- A row of a similarity-search result as consumed by `QueryService`
(`content`, plus the fields read through `doc.document_name`,
`doc.chunk_index`, `doc.similarity`, any of which may be absent). -/
structure ContextDoc where
  content : String
  document_name : Option String := none
  chunk_index : Option Nat := none
  similarity : Option ℚ := none
deriving DecidableEq, Repr

/-- Token estimate of a list of context docs (sum of the per-chunk
estimates), used to state the budget property of `limitContextSize`. -/
def tokenSum (l : List ContextDoc) : Nat :=
  (l.map (fun d => estimateTokens d.content)).sum

/-- The truncated copy of `doc` built by `limitContextSize` when only
`remainingTokens` of the budget are left:
`{...doc, content: doc.content.substring(0, remainingTokens*4) + '...'}`. -/
def truncatedDoc (doc : ContextDoc) (remainingTokens : Nat) : ContextDoc :=
  { doc with content := jsTake doc.content (remainingTokens * 4) ++ "..." }

/-- The loop of `QueryService.limitContextSize`, with the running
`totalTokens` made explicit. -/
def limitContextGo (maxTokens : Nat) : List ContextDoc → Nat → List ContextDoc
  | [], _ => []
  | doc :: rest, totalTokens =>
    let tokens := estimateTokens doc.content
    if totalTokens + tokens ≤ maxTokens then
      doc :: limitContextGo maxTokens rest (totalTokens + tokens)
    else
      let remainingTokens := maxTokens - totalTokens
      if 100 < remainingTokens then [truncatedDoc doc remainingTokens]
      else []

/-- `QueryService.limitContextSize(context, maxTokens)`. -/
def limitContextSize (context : List ContextDoc) (maxTokens : Nat) : List ContextDoc :=
  limitContextGo maxTokens context 0

/-- JS `Math.round(q * 100) / 100` (round half away from zero; all inputs
here are nonnegative, where `Math.round x = ⌊x + 1/2⌋`).  Stated with the
executable `Rat.floor`, which agrees with `Int.floor` by `Rat.floor_def`. -/
def round2 (q : ℚ) : ℚ :=
  (((q * 100 + 0.5).floor : ℤ) : ℚ) / 100

/-- `QueryService.calculateConfidence(context, query)` (the `query`
argument is unused by the source). -/
def calculateConfidence (context : List ContextDoc) : ℚ :=
  if context.length = 0 then 0
  else
    let avgSimilarity :=
      (context.foldl (fun sum doc => sum + jsOrRat doc.similarity 0.5) 0) / context.length
    let sourceCount := min ((context.length : ℚ) / 5) 1
    let avgContentLength :=
      (context.foldl (fun sum doc => sum + (doc.content.length : ℚ)) 0) / context.length
    let contentScore := min (avgContentLength / 1000) 1
    let confidence := avgSimilarity * 0.5 + sourceCount * 0.3 + contentScore * 0.2
    round2 confidence

/-- The confidence formula as the specification words it: weighted average
of (a) the mean similarity with missing scores defaulting to 0.5 (weight
0.5), (b) `min(usedChunkCount / 5, 1)` (weight 0.3), (c)
`min(meanChunkLength / 1000, 1)` (weight 0.2), rounded to two decimals,
and 0 on an empty source list. -/
def confidenceSpec (context : List ContextDoc) : ℚ :=
  if context = [] then 0
  else
    let n : ℚ := context.length
    let meanSim := ((context.map (fun d => d.similarity.getD 0.5)).sum) / n
    let meanLen := ((context.map (fun d => (d.content.length : ℚ))).sum) / n
    round2 (0.5 * meanSim + 0.3 * min (n / 5) 1 + 0.2 * min (meanLen / 1000) 1)

/-- Boolean guard used to state that a similarity score, when present, is
a cosine-similarity value at or above the query path's `match_threshold`
of 0.50 (every context list actually sent to the model was filtered that
way by the `match_documents` search). -/
def simWithinThreshold (d : ContextDoc) : Bool :=
  match d.similarity with
  | none => true
  | some s => decide (1/2 ≤ s ∧ s ≤ 1)

/-! ### The ingestion state model -/

/-- JS `s.slice(start, stop)` for nonnegative indices. -/
def jsSlice (s : String) (start stop : Nat) : String :=
  String.mk ((s.toList.drop start).take (stop - start))

/-- A row of the `documents` table, as inserted by
`DocumentService.processEmbeddings` (`created_at` is not modelled). -/
structure ChunkRow where
  content : String
  embedding : List ℚ
  document_name : String
  chunk_index : Nat
deriving DecidableEq, Repr

/-- A row of the `few_shot_examples` table. -/
structure FewShotRow where
  document_name : String
  few_shot_examples : String
deriving DecidableEq, Repr

/-- The supabase database: the two tables the services touch. -/
structure DB where
  documents : List ChunkRow
  few_shot_examples : List FewShotRow
deriving DecidableEq, Repr

/-- Counters of calls made to the external backends. -/
structure Trace where
  embedCalls : Nat
  insertCalls : Nat
  llmCalls : Nat
deriving DecidableEq, Repr

/-- The external collaborators, as deterministic oracles, plus the failure
schedule for one run: whether the `t`-th batch/chunk attempt raises
`rate_limit_exceeded`, and whether the supabase read in
`checkDocumentExists` / the insert in `storeFewShotExamplesInDB` errors. -/
structure Env where
  /-- `RecursiveCharacterTextSplitter({chunkSize: 12000, chunkOverlap: 1500}).splitText`
  (external langchain library). -/
  splitter : String → List String
  /-- `(await getEmbeddingPipeline())(text, {pooling: mean, normalize: true})`. -/
  embedder : String → List ℚ
  /-- `processSingleChunkForExamples(content, chunkNumber?)`, with `0`
  standing for an absent `chunkNumber`. -/
  genExamples : String → Nat → String
  /-- `hfClient.chatCompletion(...)` in `generateAnswer`: first choice's
  `message.content` for (system prompt, user message); `none` is a
  `null`/`undefined` content. -/
  completion : String → String → Option String
  /-- Does sibling task `k` of the `t`-th embedding batch attempt fail
  with `error.code === 'rate_limit_exceeded'`?  The batch's `Promise.all`
  rejects as soon as one sibling fails, but siblings are not cancelled:
  a non-failing sibling still completes its work. -/
  rateLimit : Nat → Nat → Bool
  /-- Same for the per-chunk few-shot generation attempts. -/
  genRateLimit : Nat → Bool
  /-- Does the supabase select inside `checkDocumentExists` error? -/
  checkReadFails : Bool
  /-- Does the supabase insert inside `storeFewShotExamplesInDB` error? -/
  storeFewShotFails : Bool

/-- The rows that a full pass over `chunks` inserts, starting at
`chunk_index i`: record `k` carries the `k`-th chunk, its embedding, the
document name and index `i + k`. -/
def chunkRecords (env : Env) (documentName : String) : Nat → List String → List ChunkRow
  | _, [] => []
  | i, c :: cs => ChunkRow.mk c (env.embedder c) documentName i :: chunkRecords env documentName (i + 1) cs

/-- The sibling tasks of one `Promise.all` batch attempt that do not hit
the rate limit: each of them runs to completion (embeds and inserts its
chunk) even when another sibling's `rate_limit_exceeded` rejects the
batch, because `Promise.all` does not cancel the other promises. -/
def completedSiblings (env : Env) (attempt : Nat) (batch : List String) :
    List (Nat × String) :=
  batch.enum.filter (fun p => !(env.rateLimit attempt p.1))

/-- The rows inserted by the completed siblings of a rate-limited batch
attempt starting at chunk offset `i` (serialized in sibling order; the
relative order of these concurrent inserts in the table is a scheduling
choice nothing below depends on). -/
def partialBatchRows (env : Env) (documentName : String) (i attempt : Nat)
    (batch : List String) : List ChunkRow :=
  (completedSiblings env attempt batch).map (fun p =>
    ChunkRow.mk p.2 (env.embedder p.2) documentName (i + p.1))

/-- The batch loop of `DocumentService.processEmbeddings`
(`for (let i = 0; i < chunks.length; i += batchSize)`): each attempt runs
the batch's chunks as sibling tasks under `Promise.all`, each task
embedding and then inserting its chunk at `chunk_index: i + index`.  On a
fully successful attempt the whole batch is inserted and `i` advances by
`batchSize`.  When some sibling raises `rate_limit_exceeded`, the
`Promise.all` rejects — but the non-failing siblings have already
completed their inserts — and the loop counter is stepped back
(`i -= batchSize`) so the next iteration retries the same batch
(re-inserting those chunks).  The inter-batch delays only consume
wall-clock time and are not modelled; `fuel` bounds the number of
iterations, with `none` for exhaustion. -/
def processEmbeddingsGo (env : Env) (documentName : String) (chunks : List String)
    (batchSize : Nat) : Nat → Nat → Nat → DB → Trace → Nat → Option (DB × Trace × Nat × Nat)
  | 0, _, _, _, _, _ => none
  | fuel + 1, i, attempt, db, tr, totalProcessed =>
    if i < chunks.length then
      let batch := (chunks.drop i).take batchSize
      if batch.enum.any (fun p => env.rateLimit attempt p.1) then
        processEmbeddingsGo env documentName chunks batchSize fuel i (attempt + 1)
          { db with documents := db.documents ++ partialBatchRows env documentName i attempt batch }
          { tr with embedCalls := tr.embedCalls + (completedSiblings env attempt batch).length,
                    insertCalls := tr.insertCalls + (completedSiblings env attempt batch).length }
          totalProcessed
      else
        let batchResults := batch.enum.map (fun p =>
          ChunkRow.mk p.2 (env.embedder p.2) documentName (i + p.1))
        processEmbeddingsGo env documentName chunks batchSize fuel (i + batchSize) (attempt + 1)
          { db with documents := db.documents ++ batchResults }
          { tr with embedCalls := tr.embedCalls + batch.length,
                    insertCalls := tr.insertCalls + batch.length }
          (totalProcessed + batch.length)
    else some (db, tr, totalProcessed, attempt)

/-- `DocumentService.processEmbeddings(pdfContent, documentName)`:
split, then run the batch loop with `batchSize = 2`, returning the number
of successfully processed chunks. -/
def processEmbeddings (env : Env) (db : DB) (tr : Trace)
    (pdfContent documentName : String) (fuel : Nat) : Option (DB × Trace × Nat) :=
  let chunks := env.splitter pdfContent
  match processEmbeddingsGo env documentName chunks 2 fuel 0 0 db tr 0 with
  | none => none
  | some (db', tr', totalProcessed, _) => some (db', tr', totalProcessed)

/-- The batch loop of `EmbeddingService.batchCreateEmbeddings`, with the
same rate-limit retry convention (`i -= batchSize` when some sibling of
the attempt is rate-limited).  Unlike the ingestion loop, a failed
attempt leaves no trace in the result: `embeddings.push(...)` runs only
after the whole `Promise.all` resolves, so the non-failing siblings'
embeddings are discarded. -/
def batchCreateEmbeddingsGo (env : Env) (texts : List String) (batchSize : Nat) :
    Nat → Nat → Nat → List (List ℚ) → Option (List (List ℚ) × Nat)
  | 0, _, _, _ => none
  | fuel + 1, i, attempt, embeddings =>
    if i < texts.length then
      let batch := (texts.drop i).take batchSize
      if batch.enum.any (fun p => env.rateLimit attempt p.1) then
        batchCreateEmbeddingsGo env texts batchSize fuel i (attempt + 1) embeddings
      else
        batchCreateEmbeddingsGo env texts batchSize fuel (i + batchSize) (attempt + 1)
          (embeddings ++ batch.map env.embedder)
    else some (embeddings, attempt)

/-- `EmbeddingService.batchCreateEmbeddings(texts, batchSize, delayMs)`
(the delays are wall-clock only and not modelled). -/
def batchCreateEmbeddings (env : Env) (texts : List String) (batchSize : Nat)
    (fuel : Nat) : Option (List (List ℚ)) :=
  match batchCreateEmbeddingsGo env texts batchSize fuel 0 0 [] with
  | none => none
  | some (embeddings, _) => some embeddings

/-- `DocumentService.getFewShotExamplesFromDB(documentName)`: a
`.single()` select succeeds only when exactly one row matches (otherwise
supabase raises `PGRST116`, which the code maps to `null`); an
empty-string `few_shot_examples` column is also mapped to `null` by
`data?.few_shot_examples || null`. -/
def getFewShotExamplesFromDB (db : DB) (documentName : String) : Option String :=
  match db.few_shot_examples.filter (fun r => r.document_name == documentName) with
  | [row] => if row.few_shot_examples == "" then none else some row.few_shot_examples
  | _ => none

/-- `DocumentService.getFewShotExamples(documentName)`. -/
def getFewShotExamples (db : DB) (documentName : String) : Option String :=
  getFewShotExamplesFromDB db documentName

/-- `DocumentService.storeFewShotExamplesInDB(documentName, fewShotExamples)`:
inserts one row, or re-throws the storage error (`none`). -/
def storeFewShotExamplesInDB (env : Env) (db : DB)
    (documentName fewShotExamples : String) : Option DB :=
  if env.storeFewShotFails then none
  else some { db with
    few_shot_examples := db.few_shot_examples ++ [FewShotRow.mk documentName fewShotExamples] }

/-- The loop of `DocumentService.splitTextForTokenLimit`
(`for (let i = 0; i < text.length; i += maxChars)`).  The internal fuel
`text.length + 1` always suffices for the source's call site
(`maxChars = 25000 * 4 > 0`); for `maxChars = 0` the JS loop would never
terminate. -/
def splitTextForTokenLimitGo (text : String) (maxChars : Nat) : Nat → Nat → List String
  | 0, _ => []
  | fuel + 1, i =>
    if i < text.length then
      jsSlice text i (i + maxChars) :: splitTextForTokenLimitGo text maxChars fuel (i + maxChars)
    else []

/-- `DocumentService.splitTextForTokenLimit(text, maxTokens)`: consecutive
non-overlapping slices of `maxTokens * 4` characters. -/
def splitTextForTokenLimit (text : String) (maxTokens : Nat) : List String :=
  splitTextForTokenLimitGo text (maxTokens * 4) (text.length + 1) 0

/-- The chunked few-shot generation loop inside
`DocumentService.generateFewShotExamples`: one completion call per chunk
(labelled `i + 1`), with `i--` on a `rate_limit_exceeded` error so the
same chunk is retried.  Non-rate-limit per-chunk errors are not modelled
(the `genExamples` oracle is total). -/
def genChunkLoop (env : Env) (chunks : List String) :
    Nat → Nat → Nat → Trace → List String → Option (List String × Trace × Nat)
  | 0, _, _, _, _ => none
  | fuel + 1, i, attempt, tr, allExamples =>
    if h : i < chunks.length then
      if env.genRateLimit attempt then
        genChunkLoop env chunks fuel i (attempt + 1) tr allExamples
      else
        genChunkLoop env chunks fuel (i + 1) (attempt + 1)
          { tr with llmCalls := tr.llmCalls + 1 }
          (allExamples ++ [env.genExamples (chunks.get ⟨i, h⟩) (i + 1)])
    else some (allExamples, tr, attempt)

/-- `DocumentService.generateFewShotExamples(pdfContent, documentName)`:
cache lookup, single-request or chunked generation, then the store; any
error raised inside (in particular a `storeFewShotExamplesInDB` failure)
is caught by the function's own `try`/`catch`, which logs it and returns
`false`. -/
def generateFewShotExamples (env : Env) (db : DB) (tr : Trace)
    (pdfContent documentName : String) (fuel : Nat) : Option (DB × Trace × Bool) :=
  match getFewShotExamplesFromDB db documentName with
  | some _ => some (db, tr, true)
  | none =>
    let maxInputTokens := 25000
    if estimateTokens pdfContent ≤ maxInputTokens then
      let fewShotExamples := env.genExamples pdfContent 0
      let tr1 := { tr with llmCalls := tr.llmCalls + 1 }
      match storeFewShotExamplesInDB env db documentName fewShotExamples with
      | none => some (db, tr1, false)
      | some db1 => some (db1, tr1, true)
    else
      let chunks := splitTextForTokenLimit pdfContent maxInputTokens
      match genChunkLoop env chunks fuel 0 0 tr [] with
      | none => none
      | some (allExamples, tr1, _) =>
        let fewShotExamples := String.intercalate "\n\n" allExamples
        match storeFewShotExamplesInDB env db documentName fewShotExamples with
        | none => some (db, tr1, false)
        | some db1 => some (db1, tr1, true)

/-- What `checkDocumentExists` reports for an existing document. -/
structure DocumentInfo where
  document_name : String
  chunk_count : Nat
deriving DecidableEq, Repr

/-- `DocumentService.checkDocumentExists(documentName)`: select matching
rows (the model keeps them all; the source reads one plus an exact
count); any storage error is caught and turned into `null`. -/
def checkDocumentExists (env : Env) (db : DB) (documentName : String) : Option DocumentInfo :=
  if env.checkReadFails then none
  else
    match db.documents.filter (fun r => r.document_name == documentName) with
    | [] => none
    | r :: rs => some (DocumentInfo.mk r.document_name (r :: rs).length)

/-- The value `DocumentService.processDocument` resolves to. -/
structure ProcessDocumentResult where
  chunksProcessed : Nat
  fewShotExamplesGenerated : Bool
deriving DecidableEq, Repr

/-- `DocumentService.processDocument(pdfContent, documentName, filePath)`
(the unused `filePath` argument is dropped): short-circuit on an existing
document, otherwise embed-and-store followed by few-shot generation. -/
def processDocument (env : Env) (db : DB) (tr : Trace)
    (pdfContent documentName : String) (fuel : Nat) :
    Option (DB × Trace × ProcessDocumentResult) :=
  match checkDocumentExists env db documentName with
  | some existingDoc => some (db, tr, ProcessDocumentResult.mk existingDoc.chunk_count true)
  | none =>
    match processEmbeddings env db tr pdfContent documentName fuel with
    | none => none
    | some (db1, tr1, chunksProcessed) =>
      match generateFewShotExamples env db1 tr1 pdfContent documentName fuel with
      | none => none
      | some (db2, tr2, fewShotExamplesGenerated) =>
        some (db2, tr2, ProcessDocumentResult.mk chunksProcessed fewShotExamplesGenerated)

/-- The loop of `EmbeddingService.splitIntoChunks`
(`for (let i = 0; i < text.length; i += step)` with
`step = chunkSize - overlap`, a possibly nonpositive JS number, hence an
`Int` index): push `text.slice(i, min(i + chunkSize, text.length))`, stop
once a window reaches the end of text.  `fuel` bounds the iterations;
`none` means the loop was still running when the fuel ran out. -/
def splitIntoChunksGo (text : String) (chunkSize : Nat) (step : Int) :
    Nat → Int → List String → Option (List String)
  | 0, _, _ => none
  | fuel + 1, i, chunks =>
    if i < (text.length : Int) then
      let endPos := min (i + chunkSize) (text.length : Int)
      let chunks1 := chunks ++ [jsSliceInt text i endPos]
      if (text.length : Int) ≤ endPos then some chunks1
      else splitIntoChunksGo text chunkSize step fuel (i + step) chunks1
    else some chunks

/-- `EmbeddingService.splitIntoChunks(text, chunkSize, overlap)`. -/
def splitIntoChunks (text : String) (chunkSize overlap : Nat) (fuel : Nat) :
    Option (List String) :=
  splitIntoChunksGo text chunkSize ((chunkSize : Int) - (overlap : Int)) fuel 0 []

/-! ### The query path (`QueryService.generateAnswer`) -/

/-- A element of the `sources` array returned by `generateAnswer`. -/
structure SourceView where
  content : String
  document_name : String
  chunk_index : Nat
  similarity : ℚ
deriving DecidableEq, Repr

/-- The value `QueryService.queryDocuments`/`generateAnswer` resolves to. -/
structure QueryResult where
  answer : String
  sources : List SourceView
  confidence : ℚ
deriving DecidableEq, Repr

/-- The few-shot example fetch at the top of `generateAnswer`: a
`.single()` select (so 0 or ≥ 2 matching rows error out and leave the
examples empty), then budget-truncation at 3000 estimated tokens. -/
def fewShotExamplesForQuery (db : DB) (documentName : String) : String :=
  match db.few_shot_examples.filter (fun r => r.document_name == documentName) with
  | [row] =>
    if estimateTokens row.few_shot_examples ≤ 3000 then row.few_shot_examples
    else jsTake row.few_shot_examples (3000 * 4) ++ "...\n\n[Examples truncated due to length]"
  | _ => ""

/-- The system prompt template of `generateAnswer` (the `${...}` splice
replaced by concatenation; JS string truthiness keeps the examples block
out when the examples string is empty). -/
def systemPromptFor (fewShotExamples : String) : String :=
  "You are a helpful assistant that answers questions based on the provided context. Do not make up information and always try to stick to the context as much as possible.\n            \n            " ++
  (if fewShotExamples = "" then ""
   else "Here are few-shot examples of how to answer questions:\n\n" ++ fewShotExamples ++ "\n\n") ++
  "\n            \n            Guidelines:\n            1. Answer based strictly on the provided context\n            2. If the information is not in the context, say so clearly\n            3. Be concise but comprehensive\n            4. Include relevant details like numbers, dates, percentages when available\n            5. If multiple sources contain relevant information, synthesize them appropriately"

/-- The user message of `generateAnswer` for a given context list. -/
def userMessageFor (context : List ContextDoc) (query : String) : String :=
  "Answer the question based on the following context:\n\n" ++
    String.intercalate "\n\n" (context.map (fun doc => doc.content)) ++
    "\n\nQuestion: " ++ query

/-- The fixed fallback answer substituted by
`queryResponse.choices[0].message.content ?? "..."`. -/
def fallbackAnswer : String := "I couldn't generate an answer."

/-- The `sources` array built by `generateAnswer`: 200-character content
previews with `|| 'Unknown'` / `|| 0` defaults. -/
def mkSources (context : List ContextDoc) : List SourceView :=
  context.map (fun doc => SourceView.mk
    (jsTake doc.content 200 ++ "...")
    (jsOrString doc.document_name "Unknown")
    (jsOrNat doc.chunk_index 0)
    (jsOrRat doc.similarity 0))

/-- `QueryService.generateAnswer(query, context, documentName?)`: fetch
(budget-trimmed) few-shot examples, build the prompts, and either answer
over the full context or—when the estimated request exceeds 50000
tokens—over a reduced context re-trimmed to an 8000-token budget; in both
branches the answer is the completion's first-choice content with the
nullish (`??`) fallback, the sources are the previews of the context
actually used, and the confidence is computed over that same context. -/
def generateAnswer (env : Env) (db : DB) (query : String) (context : List ContextDoc)
    (documentName : Option String) : QueryResult :=
  let fewShotExamples :=
    match documentName with
    | some name => fewShotExamplesForQuery db name
    | none => ""
  let systemPrompt := systemPromptFor fewShotExamples
  let userMessage := userMessageFor context query
  let totalEstimatedTokens := estimateTokens systemPrompt + estimateTokens userMessage
  if 50000 < totalEstimatedTokens then
    let reducedContext := limitContextSize context 8000
    let reducedUserMessage := userMessageFor reducedContext query
    let answer := (env.completion systemPrompt reducedUserMessage).getD fallbackAnswer
    QueryResult.mk answer (mkSources reducedContext) (calculateConfidence reducedContext)
  else
    let answer := (env.completion systemPrompt userMessage).getD fallbackAnswer
    QueryResult.mk answer (mkSources context) (calculateConfidence context)

/-! ### Concrete fixtures used to instantiate the theorems -/

/-- An empty database. -/
def dbEmpty : DB := DB.mk [] []

/-- Zeroed call counters. -/
def trZero : Trace := Trace.mk 0 0 0

/-- A concrete environment: the splitter yields three chunks, embeddings
are the empty vector, and the embedding batch attempts 0 and 2 are
rate-limited (so both batches of a three-chunk ingestion get retried
once); no storage failures. -/
def envBase : Env where
  splitter := fun _ => ["A", "B", "C"]
  embedder := fun _ => []
  genExamples := fun _ _ => "Sample Query: q\nSample Answer: a"
  completion := fun _ _ => some "An answer."
  rateLimit := fun t _ => t == 0 || t == 2
  genRateLimit := fun _ => false
  checkReadFails := false
  storeFewShotFails := false

/-- `envBase` without rate limiting. -/
def envCalm : Env := { envBase with rateLimit := fun _ _ => false }

/-- `envCalm` whose existence-check read errors out. -/
def envReadFail : Env := { envCalm with checkReadFails := true }

/-- `envCalm` whose few-shot example insert errors out. -/
def envStoreFail : Env := { envCalm with storeFewShotFails := true }

/-- `envCalm` whose completion returns an empty-string content. -/
def envEmptyContent : Env := { envCalm with completion := fun _ _ => some "" }

/-- `envCalm` whose completion returns a `null`/`undefined` content. -/
def envNullContent : Env := { envCalm with completion := fun _ _ => none }

/-- A database holding one already-ingested chunk of `doc.pdf`. -/
def dbOneDoc : DB := DB.mk [ChunkRow.mk "old chunk" [] "doc.pdf" 0] []

/-- A database holding two few-shot example rows for the same document. -/
def dbTwoExamples : DB :=
  DB.mk [] [FewShotRow.mk "doc.pdf" "E1", FewShotRow.mk "doc.pdf" "E2"]

/-- A database holding exactly one few-shot example row for `doc.pdf`. -/
def dbOneExample : DB := DB.mk [] [FewShotRow.mk "doc.pdf" "E1"]

/-- The records a three-chunk ingestion of `doc.pdf` inserts under
`envBase`/`envCalm`. -/
def rowsABC : List ChunkRow :=
  [ChunkRow.mk "A" [] "doc.pdf" 0, ChunkRow.mk "B" [] "doc.pdf" 1,
   ChunkRow.mk "C" [] "doc.pdf" 2]

/-- `envCalm` with one partial-batch rate limit: on batch attempt 0 only
sibling 1 hits the rate limit, so sibling 0's insert completes before the
attempt is retried. -/
def envPartial : Env := { envCalm with rateLimit := fun t k => t == 0 && k == 1 }

/-- The `documents` rows left by ingesting the three chunks under
`envPartial`: the retried first batch re-inserts chunk "A", duplicating
`chunk_index` 0. -/
def rowsDup : List ChunkRow :=
  [ChunkRow.mk "A" [] "doc.pdf" 0, ChunkRow.mk "A" [] "doc.pdf" 0,
   ChunkRow.mk "B" [] "doc.pdf" 1, ChunkRow.mk "C" [] "doc.pdf" 2]

/-- The database after a full `processDocument` run under `envPartial`. -/
def dbDup : DB :=
  DB.mk rowsDup [FewShotRow.mk "doc.pdf" "Sample Query: q\nSample Answer: a"]

/-- A rate-limit schedule is uniform when, within any one batch attempt,
either every sibling task hits the limit or none does — i.e. the
`rate_limit_exceeded` error strikes before any sibling insert completes,
so a failed attempt leaves no partial effects. -/
def uniformRateLimit (env : Env) : Prop :=
  ∀ t k k', env.rateLimit t k = env.rateLimit t k'

/-! ### Helper lemmas -/

/-- `Rat.floor` is `Int.floor`. -/
theorem ratFloor_eq_intFloor (q : ℚ) : (q.floor : ℤ) = ⌊q⌋ := by
  rw [Rat.floor_def', Rat.floor_def]

theorem round2_nonneg_le_one (q : ℚ) (h0 : 0 ≤ q) (h1 : q ≤ 1) :
    0 ≤ round2 q ∧ round2 q ≤ 1 := by
  unfold round2
  rw [ratFloor_eq_intFloor]
  have hlo : (0 : ℤ) ≤ ⌊q * 100 + 0.5⌋ := by
    rw [Int.le_floor]
    push_cast
    linarith
  have hhi : ⌊q * 100 + 0.5⌋ ≤ 100 := by
    have : ⌊q * 100 + 0.5⌋ < 101 := by
      rw [Int.floor_lt]
      push_cast
      linarith
    omega
  constructor
  · positivity
  · rw [div_le_one (by norm_num)]
    exact_mod_cast hhi

theorem foldl_add_eq_sum_map (l : List ContextDoc) (f : ContextDoc → ℚ) :
    ∀ a : ℚ, l.foldl (fun s d => s + f d) a = a + (l.map f).sum := by
  induction l with
  | nil => intro a; simp
  | cons d rest ih =>
    intro a
    simp only [List.foldl_cons, List.map_cons, List.sum_cons, ih]
    ring

theorem sum_bounds_of_mem_unit (l : List ℚ) (h : ∀ x ∈ l, 0 ≤ x ∧ x ≤ 1) :
    0 ≤ l.sum ∧ l.sum ≤ l.length := by
  induction l with
  | nil => simp
  | cons x rest ih =>
    have hx := h x (by simp)
    have hrest := ih (fun y hy => h y (by simp [hy]))
    simp only [List.sum_cons, List.length_cons]
    constructor
    · linarith [hx.1, hrest.1]
    · push_cast
      linarith [hx.2, hrest.2]

theorem tokenSum_cons (d : ContextDoc) (l : List ContextDoc) :
    tokenSum (d :: l) = estimateTokens d.content + tokenSum l := by
  simp [tokenSum]

/-! ### C2: `limitContextSize` returns a budget-bounded prefix -/

/-- The loop of `limitContextSize`, started with any running total within
budget, keeps a prefix of fully-included docs whose token sum (together
with the running total) stays within `maxTokens`, and handles the first
overflowing doc by the truncate-or-drop rule, accumulating nothing
further. -/
theorem limitContextGo_spec (maxTokens : Nat) :
    ∀ (l : List ContextDoc) (total : Nat), total ≤ maxTokens →
    ∃ n, n ≤ l.length ∧
      total + tokenSum (l.take n) ≤ maxTokens ∧
      (n = l.length → limitContextGo maxTokens l total = l) ∧
      (∀ h : n < l.length,
        maxTokens < total + tokenSum (l.take n) + estimateTokens (l.get ⟨n, h⟩).content ∧
        limitContextGo maxTokens l total =
          l.take n ++
            (if 100 < maxTokens - (total + tokenSum (l.take n))
             then [truncatedDoc (l.get ⟨n, h⟩) (maxTokens - (total + tokenSum (l.take n)))]
             else [])) := by
  intro l
  induction l with
  | nil =>
    intro total htot
    refine ⟨0, by simp, by simpa [tokenSum] using htot, by intro _; rfl, ?_⟩
    intro h
    simp at h
  | cons doc rest ih =>
    intro total htot
    by_cases hfit : total + estimateTokens doc.content ≤ maxTokens
    · obtain ⟨n', hn'le, hn'sum, hn'all, hn'over⟩ := ih (total + estimateTokens doc.content) hfit
      refine ⟨n' + 1, by simpa using hn'le, ?_, ?_, ?_⟩
      · simpa [List.take_succ_cons, tokenSum_cons, Nat.add_assoc] using hn'sum
      · intro hlen
        simp only [List.length_cons, Nat.add_right_cancel_iff] at hlen
        simp only [limitContextGo, if_pos hfit]
        rw [hn'all hlen]
      · intro h
        have h' : n' < rest.length := by simpa using h
        obtain ⟨hov, heq⟩ := hn'over h'
        constructor
        · simpa [List.take_succ_cons, tokenSum_cons, Nat.add_assoc, List.get_cons_succ] using hov
        · simp only [limitContextGo, if_pos hfit]
          rw [heq]
          simp [List.take_succ_cons, tokenSum_cons, Nat.add_assoc, List.get_cons_succ]
    · refine ⟨0, by simp, by simpa [tokenSum] using htot, ?_, ?_⟩
      · intro hlen
        simp at hlen
      · intro h
        have hget : (doc :: rest).get ⟨0, h⟩ = doc := rfl
        constructor
        · rw [hget]
          simp only [List.take_zero, tokenSum, List.map_nil, List.sum_nil, Nat.add_zero]
          omega
        · rw [hget]
          simp only [limitContextGo, if_neg hfit, List.take_zero, tokenSum, List.map_nil,
            List.sum_nil, Nat.add_zero, List.nil_append]

/-- C2 — `limitContextSize` returns a prefix of its input whose fully
included chunks have estimated-token sum at most `maxTokens`; the first
chunk that would overflow is included as a truncated copy (its content
capped at `remainingTokens * 4` characters plus the `...` marker) exactly
when the remaining budget exceeds 100 tokens, and otherwise dropped; in
either case nothing further is accumulated. -/
theorem limitContextSize_budgeted_take (context : List ContextDoc) (maxTokens : Nat) :
    ∃ n, n ≤ context.length ∧
      tokenSum (context.take n) ≤ maxTokens ∧
      (n = context.length → limitContextSize context maxTokens = context) ∧
      (∀ h : n < context.length,
        maxTokens < tokenSum (context.take n) + estimateTokens (context.get ⟨n, h⟩).content ∧
        limitContextSize context maxTokens =
          context.take n ++
            (if 100 < maxTokens - tokenSum (context.take n)
             then [truncatedDoc (context.get ⟨n, h⟩) (maxTokens - tokenSum (context.take n))]
             else [])) := by
  obtain ⟨n, hle, hsum, hall, hover⟩ := limitContextGo_spec maxTokens context 0 (Nat.zero_le _)
  exact ⟨n, hle, by simpa using hsum, hall, fun h => by simpa using hover h⟩

/-! ### C3: `calculateConfidence` computes the documented weighted average -/

/-- C3 — on every context list actually sent (similarity scores, when
present, are cosine similarities at or above the 0.50 search threshold),
`calculateConfidence` equals the spec's weighted average—0.5 · mean
similarity (missing scores default to 0.5) + 0.3 · min(count/5, 1) +
0.2 · min(meanLength/1000, 1)—rounded to two decimals; the result lies in
`[0, 1]`; and it is exactly 0 on the empty list. -/
theorem calculateConfidence_matches_spec (context : List ContextDoc)
    (h : ∀ d ∈ context, simWithinThreshold d = true) :
    calculateConfidence context = confidenceSpec context ∧
    0 ≤ calculateConfidence context ∧ calculateConfidence context ≤ 1 ∧
    calculateConfidence [] = 0 := by
  have hmem : ∀ d ∈ context, jsOrRat d.similarity 0.5 = d.similarity.getD 0.5 ∧
      0 ≤ d.similarity.getD 0.5 ∧ d.similarity.getD 0.5 ≤ 1 := by
    intro d hd
    have hth := h d hd
    unfold simWithinThreshold at hth
    cases hs : d.similarity with
    | none => exact ⟨rfl, by norm_num, by norm_num⟩
    | some s =>
      rw [hs] at hth
      have hb : 1/2 ≤ s ∧ s ≤ 1 := of_decide_eq_true hth
      have hne : s ≠ 0 := by linarith [hb.1]
      refine ⟨by simp [jsOrRat, hne], ?_, ?_⟩
      · simp only [Option.getD_some]
        linarith [hb.1]
      · simp only [Option.getD_some]
        exact hb.2
  rcases hctx : context with _ | ⟨d0, rest⟩
  · exact ⟨rfl, le_refl _, by norm_num [calculateConfidence], rfl⟩
  · rw [← hctx]
    have hne : context ≠ [] := by rw [hctx]; simp
    have hlen : 0 < context.length := List.length_pos.mpr hne
    have hlenq : (0 : ℚ) < context.length := by exact_mod_cast hlen
    -- the two mean-similarity expressions agree
    have hmap : context.map (fun d => jsOrRat d.similarity 0.5) =
        context.map (fun d => d.similarity.getD 0.5) :=
      List.map_congr_left (fun d hd => (hmem d hd).1)
    have hsimsum := sum_bounds_of_mem_unit (context.map (fun d => d.similarity.getD 0.5))
      (by
        intro x hx
        obtain ⟨d, hd, rfl⟩ := List.mem_map.mp hx
        exact ⟨(hmem d hd).2.1, (hmem d hd).2.2⟩)
    have hlensum : (0 : ℚ) ≤ (context.map (fun d => (d.content.length : ℚ))).sum := by
      apply List.sum_nonneg
      intro x hx
      obtain ⟨d, hd, rfl⟩ := List.mem_map.mp hx
      positivity
    set S : ℚ := (context.map (fun d => d.similarity.getD 0.5)).sum with hS
    set L : ℚ := (context.map (fun d => (d.content.length : ℚ))).sum with hL
    have havg0 : 0 ≤ S / context.length := div_nonneg hsimsum.1 hlenq.le
    have havg1 : S / context.length ≤ 1 := by
      rw [div_le_one hlenq]
      simpa [List.length_map] using hsimsum.2
    have hsc0 : 0 ≤ min ((context.length : ℚ) / 5) 1 := by positivity
    have hsc1 : min ((context.length : ℚ) / 5) 1 ≤ 1 := min_le_right _ _
    have hcs0 : 0 ≤ min (L / context.length / 1000) 1 :=
      le_min (div_nonneg (div_nonneg hlensum hlenq.le) (by norm_num)) zero_le_one
    have hcs1 : min (L / context.length / 1000) 1 ≤ 1 := min_le_right _ _
    have harg0 : 0 ≤ S / context.length * 0.5 + min ((context.length : ℚ) / 5) 1 * 0.3 +
        min (L / context.length / 1000) 1 * 0.2 := by nlinarith
    have harg1 : S / context.length * 0.5 + min ((context.length : ℚ) / 5) 1 * 0.3 +
        min (L / context.length / 1000) 1 * 0.2 ≤ 1 := by nlinarith
    have hcalc : calculateConfidence context =
        round2 (S / context.length * 0.5 + min ((context.length : ℚ) / 5) 1 * 0.3 +
          min (L / context.length / 1000) 1 * 0.2) := by
      unfold calculateConfidence
      rw [if_neg (by omega)]
      rw [foldl_add_eq_sum_map, foldl_add_eq_sum_map, hmap]
      simp [hS, hL]
    have hspec : confidenceSpec context =
        round2 (0.5 * (S / context.length) + 0.3 * min ((context.length : ℚ) / 5) 1 +
          0.2 * min (L / context.length / 1000) 1) := by
      unfold confidenceSpec
      rw [if_neg hne]
    refine ⟨?_, ?_, ?_, rfl⟩
    · rw [hcalc, hspec]
      congr 1
      ring
    · rw [hcalc]
      exact (round2_nonneg_le_one _ harg0 harg1).1
    · rw [hcalc]
      exact (round2_nonneg_le_one _ harg0 harg1).2

/-- Witness for C3 at a concrete sent context (one chunk of 4 characters
with similarity 3/4): the hypothesis holds and the theorem applies. -/
theorem calculateConfidence_matches_spec_witness :
    (∀ d ∈ [ContextDoc.mk "aaaa" none none (some (3/4))], simWithinThreshold d = true) ∧
    (calculateConfidence [ContextDoc.mk "aaaa" none none (some (3/4))] =
        confidenceSpec [ContextDoc.mk "aaaa" none none (some (3/4))] ∧
      0 ≤ calculateConfidence [ContextDoc.mk "aaaa" none none (some (3/4))] ∧
      calculateConfidence [ContextDoc.mk "aaaa" none none (some (3/4))] ≤ 1 ∧
      calculateConfidence [] = 0) :=
  ⟨by norm_num [simWithinThreshold],
   calculateConfidence_matches_spec _ (by norm_num [simWithinThreshold])⟩

/-! ### Facts about the batch loops -/

theorem chunkRecords_append (env : Env) (name : String) (xs : List String) :
    ∀ (i : Nat) (ys : List String),
      chunkRecords env name i (xs ++ ys) =
        chunkRecords env name i xs ++ chunkRecords env name (i + xs.length) ys := by
  induction xs with
  | nil => intro i ys; simp [chunkRecords]
  | cons c cs ih =>
    intro i ys
    show ChunkRow.mk c (env.embedder c) name i :: chunkRecords env name (i + 1) (cs ++ ys) = _
    rw [ih]
    have h : i + 1 + cs.length = i + (c :: cs).length := by simp; omega
    rw [h]
    rfl

theorem chunkRecords_length (env : Env) (name : String) :
    ∀ (l : List String) (i : Nat), (chunkRecords env name i l).length = l.length := by
  intro l
  induction l with
  | nil => intro i; rfl
  | cons c cs ih => intro i; simp [chunkRecords, ih]

theorem chunkRecords_get? (env : Env) (name : String) :
    ∀ (l : List String) (i k : Nat),
      (chunkRecords env name i l).get? k =
        (l.get? k).map (fun c => ChunkRow.mk c (env.embedder c) name (i + k)) := by
  intro l
  induction l with
  | nil => intro i k; cases k <;> rfl
  | cons c cs ih =>
    intro i k
    cases k with
    | zero => simp [chunkRecords]
    | succ k =>
      show (chunkRecords env name (i + 1) cs).get? k = _
      rw [ih (i + 1) k]
      have h : i + 1 + k = i + (k + 1) := by omega
      rw [h]
      rfl

theorem filter_chunkRecords (env : Env) (name : String) :
    ∀ (l : List String) (i : Nat),
      (chunkRecords env name i l).filter (fun r => r.document_name == name) =
        chunkRecords env name i l := by
  intro l
  induction l with
  | nil => intro i; rfl
  | cons c cs ih =>
    intro i
    simp only [chunkRecords, List.filter_cons, beq_self_eq_true, if_pos]
    rw [ih]

theorem enumFrom_map_chunkRecords (env : Env) (name : String) :
    ∀ (l : List String) (i j : Nat),
      (l.enumFrom j).map (fun p => ChunkRow.mk p.2 (env.embedder p.2) name (i + p.1)) =
        chunkRecords env name (i + j) l := by
  intro l
  induction l with
  | nil => intro i j; rfl
  | cons c cs ih =>
    intro i j
    show ChunkRow.mk c (env.embedder c) name (i + j) :: _ = _
    rw [ih i (j + 1)]
    have h : i + (j + 1) = i + j + 1 := by omega
    rw [h]
    rfl

theorem enum_map_chunkRecords (env : Env) (name : String) (l : List String) (i : Nat) :
    l.enum.map (fun p => ChunkRow.mk p.2 (env.embedder p.2) name (i + p.1)) =
      chunkRecords env name i l := by
  have h := enumFrom_map_chunkRecords env name l i 0
  simpa using h

/-- A suffix of a list splits as one batch plus the remaining suffix. -/
theorem drop_split_batch {α : Type _} (l : List α) (i b : Nat) :
    l.drop i = (l.drop i).take b ++ l.drop (i + b) := by
  conv_lhs => rw [← List.take_append_drop b (l.drop i)]
  rw [List.drop_drop]

theorem chunkRecords_drop_split (env : Env) (name : String) (l : List String) (i b : Nat) :
    chunkRecords env name i (l.drop i) =
      chunkRecords env name i ((l.drop i).take b) ++
        chunkRecords env name (i + b) (l.drop (i + b)) := by
  rcases le_or_lt (i + b) l.length with hle | hlt
  · have htake : ((l.drop i).take b).length = b := by
      rw [List.length_take, List.length_drop]
      omega
    conv_lhs => rw [drop_split_batch l i b]
    rw [chunkRecords_append, htake]
  · have h1 : (l.drop i).take b = l.drop i :=
      List.take_of_length_le (by rw [List.length_drop]; omega)
    have h2 : l.drop (i + b) = [] := List.drop_eq_nil_of_le (by omega)
    rw [h1, h2]
    simp [chunkRecords]

theorem drop_length_split {α : Type _} (l : List α) (i b : Nat) :
    (l.drop i).length = ((l.drop i).take b).length + (l.drop (i + b)).length := by
  simp only [List.length_take, List.length_drop]
  omega

/-- All rows of a partial batch insert carry the document's name. -/
theorem filter_partialBatchRows (env : Env) (name : String) (i attempt : Nat)
    (batch : List String) :
    (partialBatchRows env name i attempt batch).filter
      (fun r => r.document_name == name) = partialBatchRows env name i attempt batch := by
  rw [List.filter_eq_self]
  intro r hr
  obtain ⟨p, _, rfl⟩ := List.mem_map.mp hr
  simp

/-- Invariant of the ingestion batch loop under a uniform rate-limit
schedule (within any one attempt either every sibling hits the limit or
none does, so a failed attempt leaves no partial inserts): a terminating
run from position `i` appends exactly the records of the chunks from `i`
on (each at its own index, each once), touches no other table, and makes
one embedding call and one insert per remaining chunk. -/
theorem processEmbeddingsGo_spec (env : Env) (name : String) (chunks : List String) (b : Nat)
    (hU : uniformRateLimit env) :
    ∀ (fuel i attempt : Nat) (db : DB) (tr : Trace) (total : Nat)
      (db' : DB) (tr' : Trace) (total' a' : Nat),
      processEmbeddingsGo env name chunks b fuel i attempt db tr total =
        some (db', tr', total', a') →
      db'.documents = db.documents ++ chunkRecords env name i (chunks.drop i) ∧
      db'.few_shot_examples = db.few_shot_examples ∧
      total' = total + (chunks.drop i).length ∧
      tr'.embedCalls = tr.embedCalls + (chunks.drop i).length ∧
      tr'.insertCalls = tr.insertCalls + (chunks.drop i).length ∧
      tr'.llmCalls = tr.llmCalls := by
  intro fuel
  induction fuel with
  | zero =>
    intro i attempt db tr total db' tr' total' a' h
    exact absurd h (by simp [processEmbeddingsGo])
  | succ fuel ih =>
    intro i attempt db tr total db' tr' total' a' h
    simp only [processEmbeddingsGo] at h
    by_cases hi : i < chunks.length
    · rw [if_pos hi] at h
      by_cases hany : ((chunks.drop i).take b).enum.any
          (fun p => env.rateLimit attempt p.1) = true
      · rw [if_pos hany] at h
        have hall : ∀ p ∈ ((chunks.drop i).take b).enum,
            env.rateLimit attempt p.1 = true := by
          obtain ⟨p0, _, hp0⟩ := List.any_eq_true.mp hany
          intro p _
          rw [hU attempt p.1 p0.1]
          exact hp0
        have hcompl : completedSiblings env attempt ((chunks.drop i).take b) = [] := by
          unfold completedSiblings
          rw [List.filter_eq_nil_iff]
          intro p hp
          rw [hall p hp]
          simp
        simp only [partialBatchRows, hcompl, List.map_nil, List.append_nil, List.length_nil,
          Nat.add_zero] at h
        exact ih i (attempt + 1) _ _ _ db' tr' total' a' h
      · rw [if_neg hany] at h
        obtain ⟨h1, h2, h3, h4, h5, h6⟩ := ih (i + b) (attempt + 1) _ _ _ db' tr' total' a' h
        have hbatch : ((chunks.drop i).take b).enum.map
            (fun p => ChunkRow.mk p.2 (env.embedder p.2) name (i + p.1)) =
            chunkRecords env name i ((chunks.drop i).take b) :=
          enum_map_chunkRecords env name _ i
        have hsplit := drop_length_split chunks i b
        refine ⟨?_, h2, ?_, ?_, ?_, h6⟩
        · rw [h1]
          simp only [hbatch]
          rw [List.append_assoc, ← chunkRecords_drop_split]
        · have h3' : total' = total + ((chunks.drop i).take b).length +
              (chunks.drop (i + b)).length := by
            simpa [Nat.add_assoc] using h3
          omega
        · have h4' : tr'.embedCalls = tr.embedCalls + ((chunks.drop i).take b).length +
              (chunks.drop (i + b)).length := by
            simpa [Nat.add_assoc] using h4
          omega
        · have h5' : tr'.insertCalls = tr.insertCalls + ((chunks.drop i).take b).length +
              (chunks.drop (i + b)).length := by
            simpa [Nat.add_assoc] using h5
          omega
    · rw [if_neg hi] at h
      have hnil : chunks.drop i = [] := List.drop_eq_nil_of_le (by omega)
      obtain ⟨rfl, rfl, rfl, rfl⟩ :
          db = db' ∧ tr = tr' ∧ total = total' ∧ attempt = a' := by
        cases h
        exact ⟨rfl, rfl, rfl, rfl⟩
      simp [hnil, chunkRecords]

/-- `processEmbeddings` on a terminating run under a uniform rate-limit
schedule: the `documents` table gains exactly the records of all chunks,
in chunking order with `chunk_index` starting at 0, and the reported
count is the chunk count. -/
theorem processEmbeddings_spec (env : Env) (hU : uniformRateLimit env) (db : DB) (tr : Trace)
    (pdfContent documentName : String) (fuel : Nat) (db' : DB) (tr' : Trace) (total : Nat)
    (h : processEmbeddings env db tr pdfContent documentName fuel = some (db', tr', total)) :
    db'.documents = db.documents ++
      chunkRecords env documentName 0 (env.splitter pdfContent) ∧
    db'.few_shot_examples = db.few_shot_examples ∧
    total = (env.splitter pdfContent).length ∧
    tr'.embedCalls = tr.embedCalls + (env.splitter pdfContent).length ∧
    tr'.insertCalls = tr.insertCalls + (env.splitter pdfContent).length ∧
    tr'.llmCalls = tr.llmCalls := by
  have hm : (match processEmbeddingsGo env documentName (env.splitter pdfContent) 2
        fuel 0 0 db tr 0 with
      | none => none
      | some (dbx, trx, totx, _) => some (dbx, trx, totx)) = some (db', tr', total) := h
  clear h
  rcases hgo : processEmbeddingsGo env documentName (env.splitter pdfContent) 2 fuel 0 0 db tr 0
    with _ | ⟨db0, tr0, tot0, a0⟩
  · rw [hgo] at hm
    cases hm
  · rw [hgo] at hm
    obtain ⟨h1, h2, h3⟩ : db0 = db' ∧ tr0 = tr' ∧ tot0 = total := by
      cases hm
      exact ⟨rfl, rfl, rfl⟩
    subst h1
    subst h2
    subst h3
    have hs := processEmbeddingsGo_spec env documentName (env.splitter pdfContent) 2 hU
      fuel 0 0 db tr 0 _ _ _ a0 hgo
    simpa using hs

/-- Invariant of the `batchCreateEmbeddings` loop: a terminating run from
position `i` appends the embeddings of the texts from `i` on, in order. -/
theorem batchCreateEmbeddingsGo_spec (env : Env) (texts : List String) (b : Nat) :
    ∀ (fuel i attempt : Nat) (acc : List (List ℚ)) (out : List (List ℚ)) (a' : Nat),
      batchCreateEmbeddingsGo env texts b fuel i attempt acc = some (out, a') →
      out = acc ++ (texts.drop i).map env.embedder := by
  intro fuel
  induction fuel with
  | zero =>
    intro i attempt acc out a' h
    exact absurd h (by simp [batchCreateEmbeddingsGo])
  | succ fuel ih =>
    intro i attempt acc out a' h
    simp only [batchCreateEmbeddingsGo] at h
    by_cases hi : i < texts.length
    · rw [if_pos hi] at h
      by_cases hany : ((texts.drop i).take b).enum.any
          (fun p => env.rateLimit attempt p.1) = true
      · rw [if_pos hany] at h
        exact ih i (attempt + 1) acc out a' h
      · rw [if_neg hany] at h
        have h1 := ih (i + b) (attempt + 1) _ out a' h
        rw [h1, List.append_assoc, ← List.map_append, ← drop_split_batch]
    · rw [if_neg hi] at h
      have hnil : texts.drop i = [] := List.drop_eq_nil_of_le (by omega)
      obtain ⟨rfl, rfl⟩ : acc = out ∧ attempt = a' := by
        cases h
        exact ⟨rfl, rfl⟩
      simp [hnil]

/-- `batchCreateEmbeddings` on a terminating run embeds every input text
exactly once, in order. -/
theorem batchCreateEmbeddings_spec (env : Env) (texts : List String) (b fuel : Nat)
    (out : List (List ℚ)) (h : batchCreateEmbeddings env texts b fuel = some out) :
    out = texts.map env.embedder := by
  have hm : (match batchCreateEmbeddingsGo env texts b fuel 0 0 [] with
      | none => none
      | some (embeddings, _) => some embeddings) = some out := h
  clear h
  rcases hgo : batchCreateEmbeddingsGo env texts b fuel 0 0 [] with _ | ⟨out0, a0⟩
  · rw [hgo] at hm
    cases hm
  · rw [hgo] at hm
    obtain h1 : out0 = out := by
      cases hm
      rfl
    subst h1
    have hs := batchCreateEmbeddingsGo_spec env texts b fuel 0 0 [] _ a0 hgo
    simpa using hs

/-- Invariant of the ingestion batch loop on an arbitrary rate-limit
schedule: a terminating run from position `i` appends some list of rows
for this document — one embedding call and one insert per row, at least
one row per remaining chunk (partially-completed rate-limited attempts
only add more), and containing the record of every remaining chunk at its
own index — while the reported total still counts each chunk once. -/
theorem processEmbeddingsGo_inserts (env : Env) (name : String) (chunks : List String)
    (b : Nat) :
    ∀ (fuel i attempt : Nat) (db : DB) (tr : Trace) (total : Nat)
      (db' : DB) (tr' : Trace) (total' a' : Nat),
      processEmbeddingsGo env name chunks b fuel i attempt db tr total =
        some (db', tr', total', a') →
      ∃ rows : List ChunkRow,
        db'.documents = db.documents ++ rows ∧
        db'.few_shot_examples = db.few_shot_examples ∧
        total' = total + (chunks.drop i).length ∧
        tr'.embedCalls = tr.embedCalls + rows.length ∧
        tr'.insertCalls = tr.insertCalls + rows.length ∧
        tr'.llmCalls = tr.llmCalls ∧
        (chunks.drop i).length ≤ rows.length ∧
        rows.filter (fun r => r.document_name == name) = rows ∧
        (∀ k c, (chunks.drop i).get? k = some c →
          ChunkRow.mk c (env.embedder c) name (i + k) ∈ rows) := by
  intro fuel
  induction fuel with
  | zero =>
    intro i attempt db tr total db' tr' total' a' h
    exact absurd h (by simp [processEmbeddingsGo])
  | succ fuel ih =>
    intro i attempt db tr total db' tr' total' a' h
    simp only [processEmbeddingsGo] at h
    by_cases hi : i < chunks.length
    · rw [if_pos hi] at h
      by_cases hany : ((chunks.drop i).take b).enum.any
          (fun p => env.rateLimit attempt p.1) = true
      · rw [if_pos hany] at h
        obtain ⟨rows1, g1, g2, g3, g4, g5, g6, g7, g8, g9⟩ :=
          ih i (attempt + 1) _ _ _ db' tr' total' a' h
        refine ⟨partialBatchRows env name i attempt ((chunks.drop i).take b) ++ rows1,
          ?_, g2, g3, ?_, ?_, g6, ?_, ?_, ?_⟩
        · have g1' : db'.documents =
              (db.documents ++ partialBatchRows env name i attempt ((chunks.drop i).take b))
                ++ rows1 := g1
          rw [g1', List.append_assoc]
        · have g4' : tr'.embedCalls = tr.embedCalls +
              (completedSiblings env attempt ((chunks.drop i).take b)).length +
              rows1.length := g4
          simp only [List.length_append, partialBatchRows, List.length_map]
          omega
        · have g5' : tr'.insertCalls = tr.insertCalls +
              (completedSiblings env attempt ((chunks.drop i).take b)).length +
              rows1.length := g5
          simp only [List.length_append, partialBatchRows, List.length_map]
          omega
        · rw [List.length_append]
          omega
        · rw [List.filter_append, filter_partialBatchRows, g8]
        · intro k c hk
          exact List.mem_append.mpr (Or.inr (g9 k c hk))
      · rw [if_neg hany] at h
        obtain ⟨rows1, g1, g2, g3, g4, g5, g6, g7, g8, g9⟩ :=
          ih (i + b) (attempt + 1) _ _ _ db' tr' total' a' h
        have hbatch : ((chunks.drop i).take b).enum.map
            (fun p => ChunkRow.mk p.2 (env.embedder p.2) name (i + p.1)) =
            chunkRecords env name i ((chunks.drop i).take b) :=
          enum_map_chunkRecords env name _ i
        have hsplit := drop_length_split chunks i b
        have hlenbatch : (chunkRecords env name i ((chunks.drop i).take b)).length =
            ((chunks.drop i).take b).length := chunkRecords_length env name _ i
        refine ⟨chunkRecords env name i ((chunks.drop i).take b) ++ rows1,
          ?_, g2, ?_, ?_, ?_, g6, ?_, ?_, ?_⟩
        · have g1' : db'.documents =
              (db.documents ++ ((chunks.drop i).take b).enum.map
                (fun p => ChunkRow.mk p.2 (env.embedder p.2) name (i + p.1))) ++ rows1 := g1
          rw [g1', hbatch, List.append_assoc]
        · have g3' : total' = (total + ((chunks.drop i).take b).length) +
              (chunks.drop (i + b)).length := g3
          omega
        · have g4' : tr'.embedCalls = (tr.embedCalls + ((chunks.drop i).take b).length) +
              rows1.length := g4
          rw [List.length_append, hlenbatch]
          omega
        · have g5' : tr'.insertCalls = (tr.insertCalls + ((chunks.drop i).take b).length) +
              rows1.length := g5
          rw [List.length_append, hlenbatch]
          omega
        · rw [List.length_append, hlenbatch]
          omega
        · rw [List.filter_append, filter_chunkRecords, g8]
        · intro k c hk
          rw [drop_split_batch chunks i b] at hk
          rcases Nat.lt_or_ge k ((chunks.drop i).take b).length with hklt | hkge
          · rw [List.get?_append hklt] at hk
            have hmem : ChunkRow.mk c (env.embedder c) name (i + k) ∈
                chunkRecords env name i ((chunks.drop i).take b) := by
              apply List.get?_mem
              rw [chunkRecords_get?, hk]
              rfl
            exact List.mem_append.mpr (Or.inl hmem)
          · rw [List.get?_append_right hkge] at hk
            have hklen : k - ((chunks.drop i).take b).length < (chunks.drop (i + b)).length := by
              obtain ⟨hlt, _⟩ := List.get?_eq_some.mp hk
              exact hlt
            have hbl : ((chunks.drop i).take b).length = b := by
              simp only [List.length_take, List.length_drop] at hklen ⊢
              omega
            rw [hbl] at hk hkge
            have hmem := g9 (k - b) c hk
            have hidx : i + b + (k - b) = i + k := by omega
            rw [hidx] at hmem
            exact List.mem_append.mpr (Or.inr hmem)
    · rw [if_neg hi] at h
      have hnil : chunks.drop i = [] := List.drop_eq_nil_of_le (by omega)
      obtain ⟨rfl, rfl, rfl, rfl⟩ :
          db = db' ∧ tr = tr' ∧ total = total' ∧ attempt = a' := by
        cases h
        exact ⟨rfl, rfl, rfl, rfl⟩
      refine ⟨[], by simp, rfl, by simp [hnil], by simp, by simp, rfl, by simp [hnil], rfl, ?_⟩
      intro k c hk
      rw [hnil] at hk
      cases k <;> cases hk

/-- `processEmbeddings` on a terminating run over an arbitrary schedule:
every chunk's record is inserted (at its own index) at least once, the
appended rows all belong to this document, and the reported count still
counts each chunk exactly once. -/
theorem processEmbeddings_inserts (env : Env) (db : DB) (tr : Trace)
    (pdfContent documentName : String) (fuel : Nat) (db' : DB) (tr' : Trace) (total : Nat)
    (h : processEmbeddings env db tr pdfContent documentName fuel = some (db', tr', total)) :
    ∃ rows : List ChunkRow,
      db'.documents = db.documents ++ rows ∧
      db'.few_shot_examples = db.few_shot_examples ∧
      total = (env.splitter pdfContent).length ∧
      tr'.embedCalls = tr.embedCalls + rows.length ∧
      tr'.insertCalls = tr.insertCalls + rows.length ∧
      tr'.llmCalls = tr.llmCalls ∧
      (env.splitter pdfContent).length ≤ rows.length ∧
      rows.filter (fun r => r.document_name == documentName) = rows ∧
      (∀ k c, (env.splitter pdfContent).get? k = some c →
        ChunkRow.mk c (env.embedder c) documentName k ∈ rows) := by
  have hm : (match processEmbeddingsGo env documentName (env.splitter pdfContent) 2
        fuel 0 0 db tr 0 with
      | none => none
      | some (dbx, trx, totx, _) => some (dbx, trx, totx)) = some (db', tr', total) := h
  clear h
  rcases hgo : processEmbeddingsGo env documentName (env.splitter pdfContent) 2 fuel 0 0 db tr 0
    with _ | ⟨db0, tr0, tot0, a0⟩
  · rw [hgo] at hm
    cases hm
  · rw [hgo] at hm
    obtain ⟨h1, h2, h3⟩ : db0 = db' ∧ tr0 = tr' ∧ tot0 = total := by
      cases hm
      exact ⟨rfl, rfl, rfl⟩
    subst h1
    subst h2
    subst h3
    have hs := processEmbeddingsGo_inserts env documentName (env.splitter pdfContent) 2
      fuel 0 0 db tr 0 _ _ _ a0 hgo
    simpa using hs

/-- The chunked few-shot loop only makes completion calls: the embedding
and insert counters are untouched. -/
theorem genChunkLoop_trace (env : Env) (chunks : List String) :
    ∀ (fuel i attempt : Nat) (tr : Trace) (acc out : List String) (tr' : Trace) (a' : Nat),
      genChunkLoop env chunks fuel i attempt tr acc = some (out, tr', a') →
      tr'.embedCalls = tr.embedCalls ∧ tr'.insertCalls = tr.insertCalls := by
  intro fuel
  induction fuel with
  | zero =>
    intro i attempt tr acc out tr' a' h
    exact absurd h (by simp [genChunkLoop])
  | succ fuel ih =>
    intro i attempt tr acc out tr' a' h
    simp only [genChunkLoop] at h
    by_cases hi : i < chunks.length
    · rw [dif_pos hi] at h
      by_cases hrl : env.genRateLimit attempt
      · rw [if_pos hrl] at h
        exact ih i (attempt + 1) tr acc out tr' a' h
      · rw [if_neg hrl] at h
        have hs := ih (i + 1) (attempt + 1) _ _ out tr' a' h
        exact ⟨hs.1, hs.2⟩
    · rw [dif_neg hi] at h
      obtain ⟨rfl, rfl⟩ : tr = tr' ∧ attempt = a' := by
        cases h
        exact ⟨rfl, rfl⟩
      exact ⟨rfl, rfl⟩

/-- `generateFewShotExamples` never touches the `documents` table, the
embedding backend, or the insert counter of the chunk path. -/
theorem generateFewShotExamples_preserves (env : Env) (db : DB) (tr : Trace)
    (pdfContent documentName : String) (fuel : Nat) (db' : DB) (tr' : Trace) (flag : Bool)
    (h : generateFewShotExamples env db tr pdfContent documentName fuel =
      some (db', tr', flag)) :
    db'.documents = db.documents ∧
    tr'.embedCalls = tr.embedCalls ∧ tr'.insertCalls = tr.insertCalls := by
  simp only [generateFewShotExamples] at h
  rcases hget : getFewShotExamplesFromDB db documentName with _ | ex
  · rw [hget] at h
    by_cases htok : estimateTokens pdfContent ≤ 25000
    · rw [if_pos htok] at h
      simp only [storeFewShotExamplesInDB] at h
      by_cases hsf : env.storeFewShotFails
      · rw [if_pos hsf] at h
        cases h
        exact ⟨rfl, rfl, rfl⟩
      · rw [if_neg hsf] at h
        cases h
        exact ⟨rfl, rfl, rfl⟩
    · rw [if_neg htok] at h
      rcases hloop : genChunkLoop env (splitTextForTokenLimit pdfContent 25000) fuel 0 0 tr []
        with _ | ⟨allE, trL, aL⟩
      · rw [hloop] at h
        cases h
      · rw [hloop] at h
        have htr := genChunkLoop_trace env _ fuel 0 0 tr [] allE trL aL hloop
        simp only [storeFewShotExamplesInDB] at h
        by_cases hsf : env.storeFewShotFails
        · rw [if_pos hsf] at h
          cases h
          exact ⟨rfl, htr.1, htr.2⟩
        · rw [if_neg hsf] at h
          cases h
          exact ⟨rfl, htr.1, htr.2⟩
  · rw [hget] at h
    cases h
    exact ⟨rfl, rfl, rfl⟩


/-! ### C1: `processDocument` short-circuits on an already-processed document -/

/-- Counterexample to C1's second sentence: on the first ingestion, batch
attempt 0 is rate-limited for sibling 1 only, so sibling 0's insert of
chunk "A" has already completed when the batch is retried and "A" is
inserted again; the first call reports `chunksProcessed = 3`, but the
second ingestion of the same `(text, documentName)` short-circuits on the
stored row count and reports 4 — not the same `chunksProcessed`. -/
theorem second_ingestion_count_differs_counterexample :
    processDocument envPartial dbEmpty trZero "text" "doc.pdf" 9 =
      some (dbDup, Trace.mk 4 4 1, ProcessDocumentResult.mk 3 true) ∧
    processDocument envPartial dbDup trZero "text" "doc.pdf" 9 =
      some (dbDup, trZero, ProcessDocumentResult.mk 4 true) ∧
    ¬ processDocument envPartial dbDup trZero "text" "doc.pdf" 9 =
      some (dbDup, trZero, ProcessDocumentResult.mk 3 true) := by
  refine ⟨by decide, by decide, by decide⟩

/-- C1 (amended) — (i) when at least one chunk record exists for
`documentName` and the existence check's read succeeds, `processDocument`
returns the existing chunk count with `fewShotExamplesGenerated = true`,
leaving the database and every backend-call counter untouched (no
embedding calls, no chunking, no inserts); (ii) a second ingestion of the
same `(text, documentName)` right after a successful first one returns
the same `chunksProcessed` (again changing nothing) provided the first
run's rate-limit errors, if any, struck whole batch attempts (uniform
schedule) — a rate limit that interrupts an attempt after a sibling
insert completed makes the stored row count, and hence the second call's
report, exceed the first call's `chunksProcessed`. -/
theorem processDocument_short_circuits_idempotently :
    (∀ (env : Env) (db : DB) (tr : Trace) (pdfContent documentName : String) (fuel : Nat),
      env.checkReadFails = false →
      db.documents.filter (fun r => r.document_name == documentName) ≠ [] →
      processDocument env db tr pdfContent documentName fuel =
        some (db, tr, ProcessDocumentResult.mk
          (db.documents.filter (fun r => r.document_name == documentName)).length true)) ∧
    (∀ (env : Env) (db : DB) (tr tr2 : Trace) (pdfContent documentName : String)
       (fuel fuel2 : Nat) (db1 : DB) (tr1 : Trace) (res1 : ProcessDocumentResult),
      uniformRateLimit env →
      env.checkReadFails = false →
      db.documents.filter (fun r => r.document_name == documentName) = [] →
      env.splitter pdfContent ≠ [] →
      processDocument env db tr pdfContent documentName fuel = some (db1, tr1, res1) →
      processDocument env db1 tr2 pdfContent documentName fuel2 =
        some (db1, tr2, ProcessDocumentResult.mk res1.chunksProcessed true)) := by
  have short : ∀ (env : Env) (db : DB) (tr : Trace) (pdfContent documentName : String)
      (fuel : Nat),
      env.checkReadFails = false →
      db.documents.filter (fun r => r.document_name == documentName) ≠ [] →
      processDocument env db tr pdfContent documentName fuel =
        some (db, tr, ProcessDocumentResult.mk
          (db.documents.filter (fun r => r.document_name == documentName)).length true) := by
    intro env db tr pdfContent documentName fuel hread hne
    rcases hf : db.documents.filter (fun r => r.document_name == documentName) with _ | ⟨r, rs⟩
    · exact absurd hf hne
    · have hcheck : checkDocumentExists env db documentName =
          some (DocumentInfo.mk r.document_name (r :: rs).length) := by
        simp [checkDocumentExists, hread, hf]
      simp only [processDocument, hcheck]
      rw [hf]
  refine ⟨short, ?_⟩
  intro env db tr tr2 pdfContent documentName fuel fuel2 db1 tr1 res1 hU hread hempty hchunks h1
  have hcheck : checkDocumentExists env db documentName = none := by
    simp [checkDocumentExists, hread, hempty]
  simp only [processDocument, hcheck] at h1
  rcases hpe : processEmbeddings env db tr pdfContent documentName fuel
    with _ | ⟨dbA, trA, tot⟩
  · simp only [hpe] at h1
    cases h1
  · simp only [hpe] at h1
    rcases hgen : generateFewShotExamples env dbA trA pdfContent documentName fuel
      with _ | ⟨dbB, trB, flag⟩
    · simp only [hgen] at h1
      cases h1
    · simp only [hgen] at h1
      obtain ⟨hdb1, htr1, hres1⟩ : dbB = db1 ∧ trB = tr1 ∧
          ProcessDocumentResult.mk tot flag = res1 := by
        cases h1
        exact ⟨rfl, rfl, rfl⟩
      obtain ⟨hpe1, _, hpe3, _, _, _⟩ :=
        processEmbeddings_spec env hU db tr pdfContent documentName fuel dbA trA tot hpe
      obtain ⟨hgen1, _, _⟩ :=
        generateFewShotExamples_preserves env dbA trA pdfContent documentName fuel
          dbB trB flag hgen
      have hdocs : db1.documents = db.documents ++
          chunkRecords env documentName 0 (env.splitter pdfContent) := by
        rw [← hdb1, hgen1, hpe1]
      have hfilter : db1.documents.filter (fun r => r.document_name == documentName) =
          chunkRecords env documentName 0 (env.splitter pdfContent) := by
        rw [hdocs, List.filter_append, hempty, filter_chunkRecords]
        rfl
      have hlen : (db1.documents.filter (fun r => r.document_name == documentName)).length =
          (env.splitter pdfContent).length := by
        rw [hfilter, chunkRecords_length]
      have hne2 : db1.documents.filter (fun r => r.document_name == documentName) ≠ [] := by
        intro hcontra
        rw [hcontra] at hlen
        exact hchunks (List.length_eq_zero.mp hlen.symm)
      have hres : res1.chunksProcessed = (env.splitter pdfContent).length := by
        rw [← hres1, hpe3]
      rw [short env db1 tr2 pdfContent documentName fuel2 hread hne2, hlen, hres]

/-- Witness for the amended C1: with one existing chunk row the call
short-circuits with count 1; and after a fresh three-chunk ingestion
under a uniform schedule (both batches fully rate-limited once and
retried) the second call reports the same count 3. -/
theorem processDocument_short_circuits_idempotently_witness :
    (envBase.checkReadFails = false ∧
      dbOneDoc.documents.filter (fun r => r.document_name == "doc.pdf") ≠ [] ∧
      processDocument envBase dbOneDoc trZero "text" "doc.pdf" 3 =
        some (dbOneDoc, trZero, ProcessDocumentResult.mk
          (dbOneDoc.documents.filter (fun r => r.document_name == "doc.pdf")).length true)) ∧
    (uniformRateLimit envBase ∧
      dbEmpty.documents.filter (fun r => r.document_name == "doc.pdf") = [] ∧
      envBase.splitter "text" ≠ [] ∧
      processDocument envBase dbEmpty trZero "text" "doc.pdf" 9 =
        some (DB.mk rowsABC
            [FewShotRow.mk "doc.pdf" "Sample Query: q\nSample Answer: a"],
          Trace.mk 3 3 1, ProcessDocumentResult.mk 3 true) ∧
      processDocument envBase
          (DB.mk rowsABC [FewShotRow.mk "doc.pdf" "Sample Query: q\nSample Answer: a"])
          trZero "text" "doc.pdf" 2 =
        some (DB.mk rowsABC
            [FewShotRow.mk "doc.pdf" "Sample Query: q\nSample Answer: a"],
          trZero, ProcessDocumentResult.mk 3 true)) :=
  ⟨⟨rfl, by decide,
    processDocument_short_circuits_idempotently.1 envBase dbOneDoc trZero "text" "doc.pdf" 3
      rfl (by decide)⟩,
   ⟨fun _ _ _ => rfl, by decide, by decide, by decide,
    processDocument_short_circuits_idempotently.2 envBase dbEmpty trZero trZero
      "text" "doc.pdf" 9 2
      (DB.mk rowsABC [FewShotRow.mk "doc.pdf" "Sample Query: q\nSample Answer: a"])
      (Trace.mk 3 3 1) (ProcessDocumentResult.mk 3 true)
      (fun _ _ _ => rfl) rfl (by decide) (by decide) (by decide)⟩⟩

/-! ### C10: a swallowed read error defeats the idempotency guard -/

/-- C10 — when the existence-check read errors, `checkDocumentExists`
returns `null` even though chunk records exist, so `processDocument`
proceeds with full chunking/embedding/insertion: on every terminating
schedule the run appends a whole fresh chunk set for the
already-processed name (every chunk's record at its own index, at least
one embedding call and insert per chunk — a rate-limited partial batch
only adds more), so the row count for that name grows by at least the
chunk count (a duplicate chunk set) instead of short-circuiting. -/
theorem swallowed_read_error_defeats_idempotency :
    ∀ (env : Env) (db : DB) (tr : Trace) (pdfContent documentName : String) (fuel : Nat)
      (db' : DB) (tr' : Trace) (res : ProcessDocumentResult),
      env.checkReadFails = true →
      db.documents.filter (fun r => r.document_name == documentName) ≠ [] →
      processDocument env db tr pdfContent documentName fuel = some (db', tr', res) →
      checkDocumentExists env db documentName = none ∧
      res.chunksProcessed = (env.splitter pdfContent).length ∧
      (∃ rows : List ChunkRow, db'.documents = db.documents ++ rows) ∧
      (∀ k c, (env.splitter pdfContent).get? k = some c →
        ChunkRow.mk c (env.embedder c) documentName k ∈ db'.documents) ∧
      tr.embedCalls + (env.splitter pdfContent).length ≤ tr'.embedCalls ∧
      tr.insertCalls + (env.splitter pdfContent).length ≤ tr'.insertCalls ∧
      (db.documents.filter (fun r => r.document_name == documentName)).length +
          (env.splitter pdfContent).length ≤
        (db'.documents.filter (fun r => r.document_name == documentName)).length ∧
      (env.splitter pdfContent ≠ [] →
        (db.documents.filter (fun r => r.document_name == documentName)).length <
        (db'.documents.filter (fun r => r.document_name == documentName)).length) := by
  intro env db tr pdfContent documentName fuel db' tr' res hread _hrows h1
  have hcheck : checkDocumentExists env db documentName = none := by
    simp [checkDocumentExists, hread]
  simp only [processDocument, hcheck] at h1
  rcases hpe : processEmbeddings env db tr pdfContent documentName fuel
    with _ | ⟨dbA, trA, tot⟩
  · simp only [hpe] at h1
    cases h1
  · simp only [hpe] at h1
    rcases hgen : generateFewShotExamples env dbA trA pdfContent documentName fuel
      with _ | ⟨dbB, trB, flag⟩
    · simp only [hgen] at h1
      cases h1
    · simp only [hgen] at h1
      obtain ⟨hdb1, htr1, hres1⟩ : dbB = db' ∧ trB = tr' ∧
          ProcessDocumentResult.mk tot flag = res := by
        cases h1
        exact ⟨rfl, rfl, rfl⟩
      obtain ⟨rows, p1, _, p3, p4, p5, _, p7, p8, p9⟩ :=
        processEmbeddings_inserts env db tr pdfContent documentName fuel dbA trA tot hpe
      obtain ⟨g1, g2, g3⟩ :=
        generateFewShotExamples_preserves env dbA trA pdfContent documentName fuel
          dbB trB flag hgen
      have hdocs : db'.documents = db.documents ++ rows := by
        rw [← hdb1, g1, p1]
      have hfilterlen : (db'.documents.filter (fun r => r.document_name == documentName)).length =
          (db.documents.filter (fun r => r.document_name == documentName)).length +
            rows.length := by
        rw [hdocs, List.filter_append, p8, List.length_append]
      have hembed : tr'.embedCalls = tr.embedCalls + rows.length := by
        rw [← htr1, g2, p4]
      have hinsert : tr'.insertCalls = tr.insertCalls + rows.length := by
        rw [← htr1, g3, p5]
      refine ⟨hcheck, ?_, ⟨rows, hdocs⟩, ?_, ?_, ?_, ?_, ?_⟩
      · rw [← hres1, p3]
      · intro k c hk
        rw [hdocs]
        exact List.mem_append.mpr (Or.inr (p9 k c hk))
      · omega
      · omega
      · omega
      · intro hchunks
        have hpos : 0 < (env.splitter pdfContent).length :=
          List.length_pos.mpr hchunks
        omega

/-- Witness for C10: one chunk of `doc.pdf` already exists, the read
fails, and re-ingestion appends three more records for the same name. -/
theorem swallowed_read_error_defeats_idempotency_witness :
    (envReadFail.checkReadFails = true ∧
      dbOneDoc.documents.filter (fun r => r.document_name == "doc.pdf") ≠ [] ∧
      processDocument envReadFail dbOneDoc trZero "text" "doc.pdf" 9 =
        some (DB.mk (dbOneDoc.documents ++ rowsABC)
            [FewShotRow.mk "doc.pdf" "Sample Query: q\nSample Answer: a"],
          Trace.mk 3 3 1, ProcessDocumentResult.mk 3 true)) ∧
    (checkDocumentExists envReadFail dbOneDoc "doc.pdf" = none ∧
      (ProcessDocumentResult.mk 3 true).chunksProcessed =
        (envReadFail.splitter "text").length ∧
      (∃ rows : List ChunkRow,
        (DB.mk (dbOneDoc.documents ++ rowsABC)
          [FewShotRow.mk "doc.pdf" "Sample Query: q\nSample Answer: a"]).documents =
        dbOneDoc.documents ++ rows) ∧
      (∀ k c, (envReadFail.splitter "text").get? k = some c →
        ChunkRow.mk c (envReadFail.embedder c) "doc.pdf" k ∈
          (DB.mk (dbOneDoc.documents ++ rowsABC)
            [FewShotRow.mk "doc.pdf" "Sample Query: q\nSample Answer: a"]).documents) ∧
      trZero.embedCalls + (envReadFail.splitter "text").length ≤
        (Trace.mk 3 3 1).embedCalls ∧
      trZero.insertCalls + (envReadFail.splitter "text").length ≤
        (Trace.mk 3 3 1).insertCalls ∧
      (dbOneDoc.documents.filter (fun r => r.document_name == "doc.pdf")).length +
          (envReadFail.splitter "text").length ≤
        ((DB.mk (dbOneDoc.documents ++ rowsABC)
            [FewShotRow.mk "doc.pdf" "Sample Query: q\nSample Answer: a"]).documents.filter
          (fun r => r.document_name == "doc.pdf")).length ∧
      (envReadFail.splitter "text" ≠ [] →
        (dbOneDoc.documents.filter (fun r => r.document_name == "doc.pdf")).length <
        ((DB.mk (dbOneDoc.documents ++ rowsABC)
            [FewShotRow.mk "doc.pdf" "Sample Query: q\nSample Answer: a"]).documents.filter
          (fun r => r.document_name == "doc.pdf")).length)) :=
  ⟨⟨rfl, by decide, by decide⟩,
   swallowed_read_error_defeats_idempotency envReadFail dbOneDoc trZero "text" "doc.pdf" 9
     _ _ _ rfl (by decide) (by decide)⟩

/-! ### C4: rate-limited batches are retried at the same index, never skipped -/

/-- Counterexample to C4's exactly-once: with batch attempt 0 rate-limited
for sibling 1 only, sibling 0's insert of chunk "A" completes before the
error, the retried attempt inserts "A" again, and the terminating run has
embedded and inserted one of the three input chunks twice. -/
theorem partial_batch_rate_limit_double_insert_counterexample :
    processEmbeddings envPartial dbEmpty trZero "text" "doc.pdf" 9 =
      some (DB.mk rowsDup [], Trace.mk 4 4 0, 3) ∧
    (envPartial.splitter "text").length = 3 ∧
    (DB.mk rowsDup [] : DB).documents.count (ChunkRow.mk "A" [] "doc.pdf" 0) = 2 := by
  refine ⟨by decide, by decide, by decide⟩

/-- C4 (amended) — in both batch loops a rate-limited attempt repositions
the loop counter so the next iteration processes the identical batch
index (never skipped); on any terminating run `batchCreateEmbeddings`
yields every input text's embedding exactly once, in order, because
results are appended only after a fully successful attempt; the ingestion
loop inserts every chunk exactly once, in order, provided each rate-limit
error strikes its whole batch attempt (uniform schedule) — when the error
interrupts an attempt whose sibling inserts already completed, the retry
processes those chunks a second time. -/
theorem rate_limited_batch_retried_same_index :
    (∀ (env : Env) (documentName : String) (chunks : List String)
       (batchSize fuel i attempt : Nat) (db : DB) (tr : Trace) (total : Nat),
       i < chunks.length →
       ((chunks.drop i).take batchSize).enum.any (fun p => env.rateLimit attempt p.1) = true →
       processEmbeddingsGo env documentName chunks batchSize (fuel + 1) i attempt db tr total =
         processEmbeddingsGo env documentName chunks batchSize fuel i (attempt + 1)
           (DB.mk (db.documents ++
               partialBatchRows env documentName i attempt ((chunks.drop i).take batchSize))
             db.few_shot_examples)
           (Trace.mk
             (tr.embedCalls +
               (completedSiblings env attempt ((chunks.drop i).take batchSize)).length)
             (tr.insertCalls +
               (completedSiblings env attempt ((chunks.drop i).take batchSize)).length)
             tr.llmCalls)
           total) ∧
    (∀ (env : Env) (texts : List String) (batchSize fuel i attempt : Nat)
       (acc : List (List ℚ)),
       i < texts.length →
       ((texts.drop i).take batchSize).enum.any (fun p => env.rateLimit attempt p.1) = true →
       batchCreateEmbeddingsGo env texts batchSize (fuel + 1) i attempt acc =
         batchCreateEmbeddingsGo env texts batchSize fuel i (attempt + 1) acc) ∧
    (∀ (env : Env) (db : DB) (tr : Trace) (pdfContent documentName : String) (fuel : Nat)
       (db' : DB) (tr' : Trace) (total : Nat),
       uniformRateLimit env →
       processEmbeddings env db tr pdfContent documentName fuel = some (db', tr', total) →
       db'.documents = db.documents ++
         chunkRecords env documentName 0 (env.splitter pdfContent) ∧
       total = (env.splitter pdfContent).length) ∧
    (∀ (env : Env) (texts : List String) (batchSize fuel : Nat) (out : List (List ℚ)),
       batchCreateEmbeddings env texts batchSize fuel = some out →
       out = texts.map env.embedder) := by
  refine ⟨?_, ?_, ?_, ?_⟩
  · intro env documentName chunks batchSize fuel i attempt db tr total hi hany
    simp only [processEmbeddingsGo]
    rw [if_pos hi, if_pos hany]
  · intro env texts batchSize fuel i attempt acc hi hany
    simp only [batchCreateEmbeddingsGo]
    rw [if_pos hi, if_pos hany]
  · intro env db tr pdfContent documentName fuel db' tr' total hU h
    obtain ⟨h1, _, h3, _, _, _⟩ :=
      processEmbeddings_spec env hU db tr pdfContent documentName fuel db' tr' total h
    exact ⟨h1, h3⟩
  · intro env texts batchSize fuel out h
    exact batchCreateEmbeddings_spec env texts batchSize fuel out h

/-- Witness for the amended C4: the retry equations at a live
(partially and fully) rate-limited batch, a terminating three-chunk
ingestion under a uniform schedule whose rows and count are exactly the
chunk list, and a terminating two-text batch embedding mapping each text
once. -/
theorem rate_limited_batch_retried_same_index_witness :
    ((0 : Nat) < (["A", "B", "C"] : List String).length ∧
      (((["A", "B", "C"] : List String).drop 0).take 2).enum.any
        (fun p => envPartial.rateLimit 0 p.1) = true ∧
      processEmbeddingsGo envPartial "doc.pdf" ["A", "B", "C"] 2 6 0 0 dbEmpty trZero 0 =
        processEmbeddingsGo envPartial "doc.pdf" ["A", "B", "C"] 2 5 0 1
          (DB.mk (dbEmpty.documents ++
              partialBatchRows envPartial "doc.pdf" 0 0
                (((["A", "B", "C"] : List String).drop 0).take 2))
            dbEmpty.few_shot_examples)
          (Trace.mk
            (trZero.embedCalls +
              (completedSiblings envPartial 0
                (((["A", "B", "C"] : List String).drop 0).take 2)).length)
            (trZero.insertCalls +
              (completedSiblings envPartial 0
                (((["A", "B", "C"] : List String).drop 0).take 2)).length)
            trZero.llmCalls)
          0) ∧
    (batchCreateEmbeddingsGo envBase ["A", "B"] 2 6 0 0 [] =
        batchCreateEmbeddingsGo envBase ["A", "B"] 2 5 0 1 []) ∧
    (uniformRateLimit envBase ∧
      processEmbeddings envBase dbEmpty trZero "text" "doc.pdf" 9 =
        some (DB.mk rowsABC [], Trace.mk 3 3 0, 3) ∧
      (DB.mk rowsABC [] : DB).documents =
        dbEmpty.documents ++ chunkRecords envBase "doc.pdf" 0 (envBase.splitter "text") ∧
      3 = (envBase.splitter "text").length) ∧
    (batchCreateEmbeddings envBase ["A", "B"] 2 9 = some [[], []] ∧
      ([[], []] : List (List ℚ)) = (["A", "B"] : List String).map envBase.embedder) :=
  ⟨⟨by decide, by decide,
    rate_limited_batch_retried_same_index.1 envPartial "doc.pdf" ["A", "B", "C"] 2 5 0 0
      dbEmpty trZero 0 (by decide) (by decide)⟩,
   rate_limited_batch_retried_same_index.2.1 envBase ["A", "B"] 2 5 0 0 []
     (by decide) (by decide),
   ⟨fun _ _ _ => rfl,
    by decide,
    (rate_limited_batch_retried_same_index.2.2.1 envBase dbEmpty trZero "text" "doc.pdf" 9
      (DB.mk rowsABC []) (Trace.mk 3 3 0) 3 (fun _ _ _ => rfl) (by decide)).1,
    (rate_limited_batch_retried_same_index.2.2.1 envBase dbEmpty trZero "text" "doc.pdf" 9
      (DB.mk rowsABC []) (Trace.mk 3 3 0) 3 (fun _ _ _ => rfl) (by decide)).2⟩,
   ⟨by decide,
    rate_limited_batch_retried_same_index.2.2.2 envBase ["A", "B"] 2 9 [[], []]
      (by decide)⟩⟩

/-! ### C5: `chunk_index` is unique and contiguous from 0 in chunking order -/

/-- Counterexample to C5: ingesting three chunks of a previously
unprocessed document under a rate-limit schedule that interrupts batch
attempt 0 after sibling 0's insert completed leaves four stored rows —
rows 0 and 1 are both chunk "A" with `chunk_index` 0 (not unique, not the
claimed k-th record at index k). -/
theorem duplicate_chunk_index_after_partial_batch_counterexample :
    dbEmpty.documents.filter (fun r => r.document_name == "doc.pdf") = [] ∧
    processEmbeddings envPartial dbEmpty trZero "text" "doc.pdf" 9 =
      some (DB.mk rowsDup [], Trace.mk 4 4 0, 3) ∧
    ((DB.mk rowsDup [] : DB).documents.filter
      (fun r => r.document_name == "doc.pdf")).length = 4 ∧
    (envPartial.splitter "text").length = 3 ∧
    ((DB.mk rowsDup [] : DB).documents.filter
        (fun r => r.document_name == "doc.pdf")).get? 0 =
      ((DB.mk rowsDup [] : DB).documents.filter
        (fun r => r.document_name == "doc.pdf")).get? 1 ∧
    ¬ ((DB.mk rowsDup [] : DB).documents.filter
        (fun r => r.document_name == "doc.pdf")).get? 1 =
      ((envPartial.splitter "text").get? 1).map
        (fun c => ChunkRow.mk c (envPartial.embedder c) "doc.pdf" 1) := by
  refine ⟨by decide, by decide, by decide, by decide, by decide, by decide⟩

/-- C5 (amended) — for every terminating ingestion of a previously
unprocessed document whose rate-limit errors, if any, strike whole batch
attempts (uniform schedule — no sibling insert completes before the
error), the chunk records stored for that `document_name` are exactly one
per chunk: record `k` holds the `k`-th chunk of the split with
`chunk_index = k`, so the indices are unique and contiguous from 0,
assigned in chunking order; a rate limit that interrupts a batch after a
sibling insert completed instead duplicates that sibling's `chunk_index`
on retry. -/
theorem chunk_index_unique_contiguous_from_zero :
    ∀ (env : Env) (db : DB) (tr : Trace) (pdfContent documentName : String) (fuel : Nat)
      (db' : DB) (tr' : Trace) (total : Nat),
      uniformRateLimit env →
      db.documents.filter (fun r => r.document_name == documentName) = [] →
      processEmbeddings env db tr pdfContent documentName fuel = some (db', tr', total) →
      (db'.documents.filter (fun r => r.document_name == documentName)).length =
        (env.splitter pdfContent).length ∧
      ∀ k : Nat,
        (db'.documents.filter (fun r => r.document_name == documentName)).get? k =
          ((env.splitter pdfContent).get? k).map
            (fun c => ChunkRow.mk c (env.embedder c) documentName k) := by
  intro env db tr pdfContent documentName fuel db' tr' total hU hempty h
  obtain ⟨h1, _, _, _, _, _⟩ :=
    processEmbeddings_spec env hU db tr pdfContent documentName fuel db' tr' total h
  have hfilter : db'.documents.filter (fun r => r.document_name == documentName) =
      chunkRecords env documentName 0 (env.splitter pdfContent) := by
    rw [h1, List.filter_append, hempty, filter_chunkRecords]
    rfl
  rw [hfilter]
  refine ⟨chunkRecords_length env documentName _ 0, ?_⟩
  intro k
  rw [chunkRecords_get?]
  simp

/-- Witness for the amended C5: a uniform-schedule run with both batch
attempts rate-limited once still stores records
`("A",0), ("B",1), ("C",2)` for the three chunks. -/
theorem chunk_index_unique_contiguous_from_zero_witness :
    (uniformRateLimit envBase ∧
      dbEmpty.documents.filter (fun r => r.document_name == "doc.pdf") = [] ∧
      processEmbeddings envBase dbEmpty trZero "text" "doc.pdf" 9 =
        some (DB.mk rowsABC [], Trace.mk 3 3 0, 3)) ∧
    (((DB.mk rowsABC [] : DB).documents.filter
        (fun r => r.document_name == "doc.pdf")).length =
      (envBase.splitter "text").length ∧
    ∀ k : Nat,
      ((DB.mk rowsABC [] : DB).documents.filter
          (fun r => r.document_name == "doc.pdf")).get? k =
        ((envBase.splitter "text").get? k).map
          (fun c => ChunkRow.mk c (envBase.embedder c) "doc.pdf" k)) :=
  ⟨⟨fun _ _ _ => rfl, by decide, by decide⟩,
   chunk_index_unique_contiguous_from_zero envBase dbEmpty trZero "text" "doc.pdf" 9
     (DB.mk rowsABC []) (Trace.mk 3 3 0) 3 (fun _ _ _ => rfl) (by decide) (by decide)⟩


/-! ### C6: `splitIntoChunks` with `overlap ≥ chunkSize` hangs, it does not fail fast -/

/-- With a nonpositive step (`overlap ≥ chunkSize`) and a text longer
than one chunk, the `splitIntoChunks` loop never leaves the region
`i ≤ 0`, so it makes no progress: every finite fuel is exhausted. -/
theorem splitIntoChunksGo_nonpos_step (text : String) (chunkSize : Nat) (step : Int)
    (hstep : step ≤ 0) (hlen : chunkSize < text.length) :
    ∀ (fuel : Nat) (i : Int) (acc : List String), i ≤ 0 →
      splitIntoChunksGo text chunkSize step fuel i acc = none := by
  have hcast : (chunkSize : Int) < (text.length : Int) := by exact_mod_cast hlen
  intro fuel
  induction fuel with
  | zero => intro i acc _; rfl
  | succ fuel ih =>
    intro i acc hi
    have hlt : i < (text.length : Int) := by omega
    have hnotend : ¬ ((text.length : Int) ≤ min (i + (chunkSize : Int)) (text.length : Int)) := by
      rw [min_eq_left (by omega)]
      omega
    simp only [splitIntoChunksGo]
    rw [if_pos hlt, if_neg hnotend]
    exact ih (i + step) _ (by omega)

/-- C6 — the code has no `overlap < chunkSize` guard: called with
`overlap = 3 ≥ chunkSize = 2` on a 5-character text, the loop makes zero
progress and runs forever (every finite fuel returns `none`) instead of
failing fast with an error.  Under the intended precondition the loop
does terminate with the overlapping windows (the spec's own scenario:
`chunkSize = 4, overlap = 0` on `"AAAABBBBCCCC"`). -/
theorem splitIntoChunks_hangs_instead_of_failing_fast :
    (∀ fuel : Nat, splitIntoChunks "aaaaa" 2 3 fuel = none) ∧
    splitIntoChunks "AAAABBBBCCCC" 4 0 13 = some ["AAAA", "BBBB", "CCCC"] := by
  constructor
  · intro fuel
    exact splitIntoChunksGo_nonpos_step "aaaaa" 2 (((2 : Nat) : Int) - ((3 : Nat) : Int))
      (by decide) (by decide) fuel 0 [] (by decide)
  · decide

/-! ### C7: a few-shot store failure makes `generateFewShotExamples` report `false` -/

/-- Counterexample to C7: with the example-set insert failing,
`generateFewShotExamples` does **not** report success — it catches the
error and returns `false` (per its own JSDoc, "false if an error
occurs"), and `processDocument` completes reporting
`fewShotExamplesGenerated = false`, not `true` as the claim states. -/
theorem fewshot_store_failure_reports_false_counterexample :
    generateFewShotExamples envStoreFail dbEmpty trZero "content" "doc.pdf" 1 =
      some (dbEmpty, Trace.mk 0 0 1, false) ∧
    processDocument envStoreFail dbEmpty trZero "content" "doc.pdf" 9 =
      some (DB.mk rowsABC [], Trace.mk 3 3 1, ProcessDocumentResult.mk 3 false) := by
  constructor
  · decide
  · decide

/-- C7 (amended) — a failing example-set store is non-fatal in the sense
that no exception escapes: `generateFewShotExamples` catches it, logs,
and returns normally — but it reports `false`, not success, and the
generated examples are discarded (nothing is persisted); `processDocument`
completes with `fewShotExamplesGenerated = false`. -/
theorem fewshot_store_failure_nonfatal_reports_false :
    (∀ (env : Env) (db : DB) (tr : Trace) (pdfContent documentName : String) (fuel : Nat),
      env.storeFewShotFails = true →
      getFewShotExamplesFromDB db documentName = none →
      estimateTokens pdfContent ≤ 25000 →
      generateFewShotExamples env db tr pdfContent documentName fuel =
        some (db, Trace.mk tr.embedCalls tr.insertCalls (tr.llmCalls + 1), false)) ∧
    (∀ (env : Env) (db : DB) (tr : Trace) (pdfContent documentName : String) (fuel : Nat)
       (db' : DB) (tr' : Trace) (res : ProcessDocumentResult),
      env.storeFewShotFails = true →
      checkDocumentExists env db documentName = none →
      getFewShotExamplesFromDB db documentName = none →
      estimateTokens pdfContent ≤ 25000 →
      processDocument env db tr pdfContent documentName fuel = some (db', tr', res) →
      res.fewShotExamplesGenerated = false ∧
      db'.few_shot_examples = db.few_shot_examples) := by
  have part1 : ∀ (env : Env) (db : DB) (tr : Trace) (pdfContent documentName : String)
      (fuel : Nat),
      env.storeFewShotFails = true →
      getFewShotExamplesFromDB db documentName = none →
      estimateTokens pdfContent ≤ 25000 →
      generateFewShotExamples env db tr pdfContent documentName fuel =
        some (db, Trace.mk tr.embedCalls tr.insertCalls (tr.llmCalls + 1), false) := by
    intro env db tr pdfContent documentName fuel hsf hget htok
    simp only [generateFewShotExamples, hget]
    rw [if_pos htok]
    simp only [storeFewShotExamplesInDB]
    rw [if_pos hsf]
  refine ⟨part1, ?_⟩
  intro env db tr pdfContent documentName fuel db' tr' res hsf hcheck hget htok h
  simp only [processDocument, hcheck] at h
  rcases hpe : processEmbeddings env db tr pdfContent documentName fuel
    with _ | ⟨dbA, trA, tot⟩
  · simp only [hpe] at h
    cases h
  · simp only [hpe] at h
    obtain ⟨rows, _, hpe2, _, _, _, _, _, _, _⟩ :=
      processEmbeddings_inserts env db tr pdfContent documentName fuel dbA trA tot hpe
    have hgetA : getFewShotExamplesFromDB dbA documentName = none := by
      simp only [getFewShotExamplesFromDB, hpe2]
      simp only [getFewShotExamplesFromDB] at hget
      exact hget
    rw [part1 env dbA trA pdfContent documentName fuel hsf hgetA htok] at h
    obtain ⟨hdb, _, hres⟩ : dbA = db' ∧
        Trace.mk trA.embedCalls trA.insertCalls (trA.llmCalls + 1) = tr' ∧
        ProcessDocumentResult.mk tot false = res := by
      cases h
      exact ⟨rfl, rfl, rfl⟩
    constructor
    · rw [← hres]
    · rw [← hdb, hpe2]

/-- Witness for the amended C7 at a concrete store-failure run. -/
theorem fewshot_store_failure_nonfatal_reports_false_witness :
    (envStoreFail.storeFewShotFails = true ∧
      getFewShotExamplesFromDB dbEmpty "doc.pdf" = none ∧
      estimateTokens "content" ≤ 25000 ∧
      generateFewShotExamples envStoreFail dbEmpty trZero "content" "doc.pdf" 1 =
        some (dbEmpty, Trace.mk trZero.embedCalls trZero.insertCalls
          (trZero.llmCalls + 1), false)) ∧
    (checkDocumentExists envStoreFail dbEmpty "doc.pdf" = none ∧
      processDocument envStoreFail dbEmpty trZero "content" "doc.pdf" 9 =
        some (DB.mk rowsABC [], Trace.mk 3 3 1, ProcessDocumentResult.mk 3 false) ∧
      (ProcessDocumentResult.mk 3 false).fewShotExamplesGenerated = false ∧
      (DB.mk rowsABC [] : DB).few_shot_examples = dbEmpty.few_shot_examples) :=
  ⟨⟨rfl, by decide, by decide,
    fewshot_store_failure_nonfatal_reports_false.1 envStoreFail dbEmpty trZero
      "content" "doc.pdf" 1 rfl (by decide) (by decide)⟩,
   ⟨by decide, by decide,
    fewshot_store_failure_nonfatal_reports_false.2 envStoreFail dbEmpty trZero
      "content" "doc.pdf" 9 (DB.mk rowsABC []) (Trace.mk 3 3 1)
      (ProcessDocumentResult.mk 3 false) rfl (by decide) (by decide) (by decide)
      (by decide)⟩⟩

/-! ### C8: the `??` fallback does not catch an empty-string answer -/

set_option maxRecDepth 20000 in
/-- Counterexample to C8: when the completion's first choice has content
`""` (empty but not `null`/`undefined`), the nullish operator `??` keeps
it, so the returned answer **is** the empty string, not the fallback. -/
theorem empty_answer_returned_verbatim_counterexample :
    (generateAnswer envEmptyContent dbEmpty "q" [] none).answer = "" ∧
    (generateAnswer envEmptyContent dbEmpty "q" [] none).answer ≠ fallbackAnswer := by
  constructor
  · decide
  · decide

/-- C8 (amended) — the fallback is substituted exactly when the first
choice's content is nullish (`null`/`undefined`): if the completion
returns `none` the answer is the fixed fallback string (in both the
normal and the reduced-context branch), and if it returns any string `t`
— including the empty string — the answer is `t` verbatim. -/
theorem answer_falls_back_only_on_nullish_content :
    ∀ (env : Env) (db : DB) (query : String) (context : List ContextDoc)
      (documentName : Option String),
      ((∀ s u, env.completion s u = none) →
        (generateAnswer env db query context documentName).answer = fallbackAnswer) ∧
      (∀ t : String, (∀ s u, env.completion s u = some t) →
        (generateAnswer env db query context documentName).answer = t) := by
  intro env db query context documentName
  constructor
  · intro hc
    simp only [generateAnswer]
    split
    · simp [hc]
    · simp [hc]
  · intro t ht
    simp only [generateAnswer]
    split
    · simp [ht]
    · simp [ht]

/-- Witness for the amended C8: a `null` content yields the fallback; a
non-null content (here `"An answer."`) is returned verbatim. -/
theorem answer_falls_back_only_on_nullish_content_witness :
    ((∀ s u, envNullContent.completion s u = none) ∧
      (generateAnswer envNullContent dbEmpty "q" [] none).answer = fallbackAnswer) ∧
    ((∀ s u, envCalm.completion s u = some "An answer.") ∧
      (generateAnswer envCalm dbEmpty "q" [] none).answer = "An answer.") :=
  ⟨⟨fun _ _ => rfl,
    (answer_falls_back_only_on_nullish_content envNullContent dbEmpty "q" [] none).1
      (fun _ _ => rfl)⟩,
   ⟨fun _ _ => rfl,
    (answer_falls_back_only_on_nullish_content envCalm dbEmpty "q" [] none).2
      "An answer." (fun _ _ => rfl)⟩⟩

/-! ### C9: with duplicate example rows the `.single()` lookup misses -/

/-- Counterexample to C9: with two stored example rows for `doc.pdf`, the
`.single()` select errors (`PGRST116`), which both lookup paths map to a
not-found result — no stored row is returned. -/
theorem duplicate_fewshot_rows_lookup_misses_counterexample :
    (dbTwoExamples.few_shot_examples.filter
      (fun r => r.document_name == "doc.pdf")).length = 2 ∧
    getFewShotExamplesFromDB dbTwoExamples "doc.pdf" = none ∧
    getFewShotExamples dbTwoExamples "doc.pdf" = none ∧
    fewShotExamplesForQuery dbTwoExamples "doc.pdf" = "" := by
  refine ⟨by decide, by decide, by decide, by decide⟩

/-- C9 (amended) — the cache lookups return a stored row only when
**exactly one** row matches the `document_name`: with two or more rows
the `.single()` call errors and both consumers treat it as a cache miss
(`null` / empty examples); with exactly one (non-empty) row that row is
returned. -/
theorem fewshot_lookup_requires_exactly_one_row :
    (∀ (db : DB) (documentName : String),
      2 ≤ (db.few_shot_examples.filter (fun r => r.document_name == documentName)).length →
      getFewShotExamplesFromDB db documentName = none ∧
      fewShotExamplesForQuery db documentName = "") ∧
    (∀ (db : DB) (documentName : String) (row : FewShotRow),
      db.few_shot_examples.filter (fun r => r.document_name == documentName) = [row] →
      row.few_shot_examples ≠ "" →
      getFewShotExamplesFromDB db documentName = some row.few_shot_examples) := by
  constructor
  · intro db documentName hlen
    rcases hf : db.few_shot_examples.filter (fun r => r.document_name == documentName)
      with _ | ⟨r1, _ | ⟨r2, rest⟩⟩
    · rw [hf] at hlen
      simp at hlen
    · rw [hf] at hlen
      simp at hlen
    · constructor
      · simp only [getFewShotExamplesFromDB, hf]
      · simp only [fewShotExamplesForQuery, hf]
  · intro db documentName row hf hne
    have hb : (row.few_shot_examples == "") = false := beq_eq_false_iff_ne.mpr hne
    simp only [getFewShotExamplesFromDB, hf, hb]
    rfl

/-- Witness for the amended C9: two rows yield a miss; one non-empty row
is returned. -/
theorem fewshot_lookup_requires_exactly_one_row_witness :
    (2 ≤ (dbTwoExamples.few_shot_examples.filter
        (fun r => r.document_name == "doc.pdf")).length ∧
      getFewShotExamplesFromDB dbTwoExamples "doc.pdf" = none ∧
      fewShotExamplesForQuery dbTwoExamples "doc.pdf" = "") ∧
    (dbOneExample.few_shot_examples.filter (fun r => r.document_name == "doc.pdf") =
        [FewShotRow.mk "doc.pdf" "E1"] ∧
      getFewShotExamplesFromDB dbOneExample "doc.pdf" =
        some (FewShotRow.mk "doc.pdf" "E1").few_shot_examples) :=
  ⟨⟨by decide,
    fewshot_lookup_requires_exactly_one_row.1 dbTwoExamples "doc.pdf" (by decide)⟩,
   ⟨by decide,
    fewshot_lookup_requires_exactly_one_row.2 dbOneExample "doc.pdf"
      (FewShotRow.mk "doc.pdf" "E1") (by decide) (by decide)⟩⟩

end DocChat
